import Mathlib

/-!
Verification development for the `overpassify` transpiler: a shallow
embedding of its two passes — the desugaring pass (`transform.py`) and the
OverpassQL emission pass (`overpassify.py`) — together with theorems that
settle the specification claims against the code.

Modelling conventions:
* Python machine-level details that the code relies on are made explicit:
  Python lists are untyped, so the desugarer may place a bare expression
  (a `Call` node) into a statement list; the statement type has a
  `bareExpr` constructor for exactly that.
* Exceptions (`TypeError`, `NameError`, `IndexError`, `AttributeError`)
  are modelled with `Except`.
* `randint(0, 2**32)` is used by the source only to produce fresh
  identifiers; it is modelled as a monotonic counter supply (the spec,
  §4.2, explicitly permits a monotonic nonce).
* The fixed-point loop of `transform` is modelled with explicit fuel;
  running out of fuel is the `Err.fuel` outcome and models
  non-termination.  All single-pass functions are total.
-/

/-- Error kinds corresponding to the Python exceptions the code can raise,
plus `fuel`, which models non-termination of the fixed-point loop. -/
inductive Err
| typeError (msg : String)
| nameError (msg : String)
| indexError (msg : String)
| attributeError (msg : String)
| fuel
deriving DecidableEq, Repr

/-- Result of `parse` on an expression.  Most registers return strings, but
`NameConstant` returns the constant itself and `Ellipsis` returns the
ellipsis object; `parse_tags` and `float()` distinguish these. -/
inductive PyVal
| str (s : String)
| pyNone
| pyTrue
| pyFalse
| pyEllipsis
deriving DecidableEq, Repr

/-- Python `'{}'.format(v)`: any object can be interpolated into a format
string; non-strings render via `str()`. -/
def PyVal.fmt : PyVal → String
| .str s => s
| .pyNone => "None"
| .pyTrue => "True"
| .pyFalse => "False"
| .pyEllipsis => "Ellipsis"

/-- The `NameConstant` payloads (`True`, `False`, `None`). -/
inductive NC
| ncTrue
| ncFalse
| ncNone
deriving DecidableEq, Repr

/-- Binary arithmetic operators (`_ast.Add` etc.). -/
inductive BinK
| add | sub | mult | div | floorDiv
deriving DecidableEq, Repr

/-- Boolean operators (`_ast.And`, `_ast.Or`). -/
inductive BoolK
| bAnd | bOr
deriving DecidableEq, Repr

/-- Unary operators (`_ast.USub`, `_ast.Not`). -/
inductive UnK
| uSub | uNot
deriving DecidableEq, Repr

/-- Comparison operators. -/
inductive CmpK
| ceq | cne | clt | cle | cgt | cge
deriving DecidableEq, Repr

/-- Expressions, following the `_ast` node kinds the compiler handles.
`boolOp` carries a value list, as `_ast.BoolOp` does (it has no
`left`/`right` fields — a fact the emitter trips over).  `compare` is the
single-operator form, matching the code's use of `ops[0]` and
`comparators[0]`. -/
inductive Expr
| name (id : String)
| num (n : Int)
| str (s : String)
| nameConst (v : NC)
| ellipsis
| attr (value : Expr) (a : String)
| subscript (value : Expr) (index : Expr)
| binOp (op : BinK) (left : Expr) (right : Expr)
| boolOp (op : BoolK) (values : List Expr)
| unaryOp (op : UnK) (operand : Expr)
| compare (left : Expr) (op : CmpK) (right : Expr)
| ifExp (test : Expr) (body : Expr) (orelse : Expr)
| call (f : Expr) (args : List Expr) (kws : List (String × Expr))

/-- Statements.  `bareExpr` is a bare expression sitting in a statement
list: Python lists are untyped and the desugarer's `Call` register appends
the call expression itself (not wrapped in `Expr`) to the output list. -/
inductive Stmt
| assign (target : Expr) (value : Expr)
| exprStmt (value : Expr)
| sIf (test : Expr) (body : List Stmt) (orelse : List Stmt)
| sFor (target : Expr) (iter : Expr) (body : List Stmt) (orelse : List Stmt)
| sBreak
| sContinue
| bareExpr (e : Expr)

/-- Counter supply standing in for `randint`; `draw` yields the next nonce. -/
abbrev Ctr := Nat

/-- Draw a fresh nonce from the supply. -/
def draw (c : Ctr) : Nat × Ctr := (c, c + 1)

/-- The statement kinds `scan` is asked about (`_ast.Break`,
`_ast.Continue`). -/
inductive Kind
| kBreak
| kContinue
deriving DecidableEq

/-- The `isinstance(statement, item_class)` test used by `scan`. -/
def isKind : Stmt → Kind → Bool
| .sBreak, .kBreak => true
| .sContinue, .kContinue => true
| _, _ => false

mutual
/-- `scan` on a statement list: `isinstance(statement, item_class) or
scan(statement, item_class)` for each element. -/
def scanList : List Stmt → Kind → Bool
| [], _ => false
| s :: rest, k => isKind s k || scanStmt s k || scanList rest k

/-- `scan` on a single statement: the `_ast.If` register descends into both
branches; every other statement kind falls to the default register, which
returns `False`.  In particular `scan` does not look inside `For` bodies. -/
def scanStmt : Stmt → Kind → Bool
| .sIf _ body orelse, k => scanList body k || scanList orelse k
| _, _ => false
end

/-- The expression `Relation(2186646)` produced by parsing the rewrite
templates. -/
def relationCall : Expr := .call (.name "Relation") [.num 2186646] []

/-- The expression `Set()` from the `If`-register template. -/
def setCall : Expr := .call (.name "Set") [] []

/-- The statement `name = Way.filter(name)` used to extinguish a
break/continue flag. -/
def extinguish (name : String) : Stmt :=
  .assign (.name name) (.call (.attr (.name "Way") "filter") [.name name] [])

/-- The guard `for _ in name: s`, i.e. the parsed `for _ in {}: a()`
template with its body replaced by `[s]`. -/
def condFor (name : String) (s : Stmt) : Stmt :=
  .sFor (.name "_") (.name name) [s] []

mutual
/-- Rewrite of one statement inside `transform_break`'s loop: an `If` is
replaced by `transform_break(statement, name=name)[1]` — the `If` with its
body rewritten and its else branch emptied (the statements generated for a
non-empty else branch of an inner `If` are dropped, because only index 1 of
the returned list is kept); a `Break` becomes the flag extinguisher; any
other statement is kept as is. -/
def tbStmt (name : String) : Stmt → Stmt
| .sIf t body _ => .sIf t (tbBody name body) []
| .sBreak => extinguish name
| s => s

/-- The loop of `transform_break`: each (rewritten) statement is wrapped in
`for _ in name: statement`. -/
def tbBody (name : String) : List Stmt → List Stmt
| [] => []
| s :: rest => condFor name (tbStmt name s) :: tbBody name rest
end

/-- `transform_break` applied (as `_transform` does) to a `For` statement,
with a fresh flag name drawn at entry.  Returns the statements it appends
to the output list. -/
def transformBreak (tgt itr : Expr) (body orelse : List Stmt) (c : Ctr) :
    List Stmt × Ctr :=
  let (n, c1) := draw c
  let name := "tmpbreak" ++ Nat.repr n
  let assignment := Stmt.assign (.name name) relationCall
  let item := Stmt.sFor tgt itr (tbBody name body) []
  if orelse.length > 0 then
    ([assignment, item,
      .assign (.name (name ++ "else")) relationCall,
      .sFor (.name "_") (.name name) [extinguish (name ++ "else")] [],
      .sFor (.name "_") (.name (name ++ "else")) orelse []], c1)
  else
    ([assignment, item], c1)

/-- The loop of `transform_continue`.  On an `If` statement the source
evaluates `transform_continue(statement, name=name)[1]`, but
`transform_continue` returns a one-element list (`body = [item]`), so the
index raises `IndexError`. -/
def tcBody (name : String) : List Stmt → Except Err (List Stmt)
| [] => .ok []
| s :: rest =>
  match s with
  | .sIf _ _ _ => .error (.indexError "list index out of range")
  | s =>
    match tcBody name rest with
    | .error e => .error e
    | .ok rest2 =>
      .ok (condFor name (if isKind s .kContinue then extinguish name else s) :: rest2)

/-- `transform_continue` applied to a `For` statement.  The flag is
initialised as the first statement of the rewritten loop body, and — unlike
`transform_break` — the loop's else clause is left untouched. -/
def transformContinue (tgt itr : Expr) (body orelse : List Stmt) (c : Ctr) :
    Except Err (List Stmt × Ctr) :=
  let (n, c1) := draw c
  let name := "tmpcontinue" ++ Nat.repr n
  match tcBody name body with
  | .error e => .error e
  | .ok wrapped =>
    .ok ([Stmt.sFor tgt itr (Stmt.assign (.name name) relationCall :: wrapped) orelse], c1)

/-- Test used by the `Call` register: `isinstance(x, (_ast.Name, _ast.Num))`. -/
def isNameOrNum : Expr → Bool
| .name _ => true
| .num _ => true
| _ => false

/-- Test `isinstance(x, _ast.Name)`. -/
def isNameE : Expr → Bool
| .name _ => true
| _ => false

/-- Test `isinstance(x, _ast.Call)`. -/
def isCallE : Expr → Bool
| .call _ _ _ => true
| _ => false

mutual
/-- The `_transform` dispatch on an expression (the `Call` register; every
other expression kind hits the default register, which appends a copy of
the item when `top` is set and reports no change).  Returns the changed
flag, the statements appended to the caller's list, the expression after
in-place mutation, and the counter. -/
def trExpr (e : Expr) (top : Bool) (c : Ctr) : Bool × List Stmt × Expr × Ctr :=
  match e with
  | .call f args kws =>
    if top && args.length != 0 then
      match trFirstArg args c with
      | (pre, a0 :: rest, c1) =>
        if !(isNameOrNum a0) then
          -- hoist: `tmpcallN = a0` then the call with `args[0]` replaced
          let (n, c2) := draw c1
          let tn := "tmpcall" ++ Nat.repr n
          let e2 := Expr.call f (Expr.name tn :: rest) kws
          (true, pre ++ [.assign (.name tn) a0, .bareExpr e2], e2, c2)
        else
          (false, pre, Expr.call f (a0 :: rest) kws, c1)
      | (pre, [], c1) => (false, pre, Expr.call f [] kws, c1)
    else (false, [], Expr.call f args kws, c)
  | e =>
    if top then (false, [Stmt.bareExpr e], e, c) else (false, [], e, c)

/-- Step preceding the hoist in the `Call` register: if `args[0]` is itself
a `Call`, it is transformed recursively (the returned flag is ignored; the
side effects — statements appended to the same output list and the in-place
mutation of `args[0]` — are kept). -/
def trFirstArg (args : List Expr) (c : Ctr) : List Stmt × List Expr × Ctr :=
  match args with
  | [] => ([], [], c)
  | a0 :: rest =>
    match a0 with
    | .call f0 args0 kws0 =>
      match trCallExpr f0 args0 kws0 c with
      | (out, a1, c1) => (out, a1 :: rest, c1)
    | a0 => ([], a0 :: rest, c)

/-- Body of the `Call` register for a call already known to be in the
`top` position of the recursive step (this is how `_transform(item.args[0],
body=body, top=top)` behaves when `args[0]` is a `Call`). -/
def trCallExpr (f : Expr) (args : List Expr) (kws : List (String × Expr)) (c : Ctr) :
    List Stmt × Expr × Ctr :=
  if args.length != 0 then
    match trFirstArg args c with
    | (pre, a0 :: rest, c1) =>
      if !(isNameOrNum a0) then
        let (n, c2) := draw c1
        let tn := "tmpcall" ++ Nat.repr n
        let e2 := Expr.call f (Expr.name tn :: rest) kws
        (pre ++ [.assign (.name tn) a0, .bareExpr e2], e2, c2)
      else
        (pre, Expr.call f (a0 :: rest) kws, c1)
    | (pre, [], c1) => (pre, Expr.call f [] kws, c1)
  else ([], Expr.call f args kws, c)
end

mutual
/-- One `_transform` step on a single statement (the per-register
behaviour).  Returns `(changed, appended statements, counter)`. -/
def trStmt (s : Stmt) (top : Bool) (c : Ctr) : Except Err (Bool × List Stmt × Ctr) :=
  match s with
  | .sFor tgt itr body orelse =>
    if scanList body .kBreak then
      match transformBreak tgt itr body orelse c with
      | (outs, c1) => .ok (true, outs, c1)
    else if scanList body .kContinue then
      match transformContinue tgt itr body orelse c with
      | .error e => .error e
      | .ok (outs, c1) => .ok (true, outs, c1)
    else
      match trList body c with
      | .error e => .error e
      | .ok (chg, nb, c1) =>
        if chg then .ok (true, [.sFor tgt itr nb orelse], c1)
        else if !(isNameE itr) then
          -- hoist the iterator: `tmpforN = iter` then the loop over the name
          let (n, c2) := draw c1
          let tn := "tmpfor" ++ Nat.repr n
          .ok (true, [.assign (.name tn) itr, .sFor tgt (.name tn) body orelse], c2)
        else if top then .ok (false, [.sFor tgt itr body orelse], c1)
        else .ok (false, [], c1)
  | .sIf test body orelse =>
    -- templates: `{t}r = Relation(2186646)`, `{t} = {t}r if test else Set()`,
    -- `for tmp_ in {t}: a()`; for a non-empty else branch additionally
    -- `{t} = {t}r if not (test) else Set()` and `for tmp_ in {t}: a()`.
    -- The source then executes `test2.value.test = item.test`, which
    -- replaces the whole `UnaryOp(Not, ...)` of the second template with
    -- the bare test, so both gates end up with the same, unnegated test.
    let (n, c1) := draw c
    let tn := "tmpif" ++ Nat.repr n
    let init := Stmt.assign (.name (tn ++ "r")) relationCall
    let gate := Stmt.assign (.name tn) (.ifExp test (.name (tn ++ "r")) setCall)
    let loop := Stmt.sFor (.name "tmp_") (.name tn) body []
    if orelse.length > 0 then
      let gate2 := Stmt.assign (.name tn) (.ifExp test (.name (tn ++ "r")) setCall)
      let loop2 := Stmt.sFor (.name "tmp_") (.name tn) orelse []
      .ok (true, [init, gate, loop, gate2, loop2], c1)
    else
      .ok (true, [init, gate, loop], c1)
  | .exprStmt v =>
    match trExpr v top c with
    | (chg, nb, v1, c1) =>
      if chg then .ok (true, nb, c1) else .ok (false, [.exprStmt v1], c1)
  | .assign tgt v =>
    match trExpr v top c with
    | (chg, nb, v1, c1) =>
      -- `item.value = new_body[-1]; new_body = new_body[:-1] + [item]`
      if chg then .ok (true, nb.dropLast ++ [.assign tgt v1], c1)
      else .ok (false, [.assign tgt v1], c1)
  | .bareExpr e =>
    -- dispatch on the runtime type of the bare expression: a `Call` hits
    -- the Call register (which appends nothing when it reports no change,
    -- silently dropping the statement); anything else hits the default
    -- register.
    match trExpr e top c with
    | (chg, nb, _, c1) => .ok (chg, nb, c1)
  | .sBreak => if top then .ok (false, [.sBreak], c) else .ok (false, [], c)
  | .sContinue => if top then .ok (false, [.sContinue], c) else .ok (false, [], c)

/-- One `_transform` step on a statement list: every element is processed
with `top=True` and the changed flags are or-ed. -/
def trList (l : List Stmt) (c : Ctr) : Except Err (Bool × List Stmt × Ctr) :=
  match l with
  | [] => .ok (false, [], c)
  | s :: rest =>
    match trStmt s true c with
    | .error e => .error e
    | .ok (c1, o1, k1) =>
      match trList rest k1 with
      | .error e => .error e
      | .ok (c2, o2, k2) => .ok (c1 || c2, o1 ++ o2, k2)
end

/-- The fixed-point loop of `transform`: run `_transform` passes until one
reports no change.  `fuel` bounds the number of passes; exhausting it
models non-termination. -/
def transformFuel : Nat → List Stmt → Ctr → Except Err (List Stmt × Ctr)
| 0, _, _ => .error .fuel
| f + 1, body, c =>
  match trList body c with
  | .error e => .error e
  | .ok (chg, out, c1) =>
    if chg then transformFuel f out c1 else .ok (out, c1)

/-- Decidable equality for `Except` results, used to evaluate the
embedding at concrete inputs. -/
instance {e a : Type} [DecidableEq e] [DecidableEq a] : DecidableEq (Except e a) := fun x y =>
  match x, y with
  | .error u, .error v =>
    if h : u = v then .isTrue (by rw [h]) else .isFalse (fun hh => h (Except.error.inj hh))
  | .ok u, .ok v =>
    if h : u = v then .isTrue (by rw [h]) else .isFalse (fun hh => h (Except.ok.inj hh))
  | .error _, .ok _ => .isFalse (fun hh => Except.noConfusion hh)
  | .ok _, .error _ => .isFalse (fun hh => Except.noConfusion hh)

/-! ## String helpers

Python string operations used by the emitter, implemented over character
lists so that the content claims about them are provable.  Each helper
models the Python operation named in its doc comment; the emitted
fragments are ASCII, so character indexing and byte indexing agree. -/

/-- Python `'.' in name`. -/
def hasDot (s : String) : Bool := s.toList.any (fun ch => ch == '.')

/-- Python `v.startswith(pre)`. -/
def pyStarts (v pre : String) : Bool :=
  v.toList.take pre.toList.length == pre.toList

/-- Python `v.endswith(suf)`. -/
def pyEnds (v suf : String) : Bool :=
  v.toList.reverse.take suf.toList.length == suf.toList.reverse

/-- Python `v[n:]`. -/
def sliceDrop (v : String) (n : Nat) : String := String.mk (v.toList.drop n)

/-- Python `v[n:-1]`. -/
def sliceDropLast (v : String) (n : Nat) : String :=
  String.mk ((v.toList.drop n).dropLast)

/-- Python `s.split('.')[0]`. -/
def firstComponent (s : String) : String :=
  String.mk (s.toList.takeWhile (fun ch => ch != '.'))

/-- Python `s.lower()` (ASCII). -/
def lowerStr (s : String) : String := String.mk (s.toList.map Char.toLower)

/-- Remove every occurrence of `pat` from `cs` (Python
`s.replace(pat, '')`); the fuel argument only bounds the recursion and is
instantiated with the length of the subject. -/
def stripSub (pat : List Char) : Nat → List Char → List Char
| 0, _ => []
| _, [] => []
| f + 1, ch :: rest =>
  if (ch :: rest).take pat.length == pat then stripSub pat f ((ch :: rest).drop pat.length)
  else ch :: stripSub pat f rest

/-- Python `s.replace(pat, '')`. -/
def replaceEmpty (s pat : String) : String :=
  String.mk (stripSub pat.toList (s.toList.length + 1) s.toList)

/-- Python `sep.join(parts)` over an already-materialised list. -/
def joinSep (sep : String) : List String → String
| [] => ""
| [x] => x
| x :: rest => x ++ sep ++ joinSep sep rest

/-- Whitespace stripping performed by Python `float()`. -/
def stripWs (s : String) : List Char :=
  ((s.toList.dropWhile Char.isWhitespace).reverse.dropWhile Char.isWhitespace).reverse

/-- Non-empty all-digit run. -/
def isDigitsNE (cs : List Char) : Bool := !cs.isEmpty && cs.all Char.isDigit

/-- Split a character list at the first `e`/`E`. -/
def splitAtExpCh : List Char → List Char × Option (List Char)
| [] => ([], none)
| ch :: rest =>
  if ch == 'e' || ch == 'E' then ([], some rest)
  else match splitAtExpCh rest with
       | (a, b) => (ch :: a, b)

/-- Mantissa of a float literal: digits with at most one decimal point and
at least one digit. -/
def isMantissa (cs : List Char) : Bool :=
  cs.all (fun ch => ch.isDigit || ch == '.') &&
  decide ((cs.filter (fun ch => ch == '.')).length ≤ 1) &&
  cs.any Char.isDigit

/-- Exponent part: optional sign then digits. -/
def isExpPart : List Char → Bool
| '+' :: r => isDigitsNE r
| '-' :: r => isDigitsNE r
| r => isDigitsNE r

/-- Unsigned float body: `inf`/`infinity`/`nan` (case-insensitive) or a
mantissa with optional exponent. -/
def isPyFloatCore (cs : List Char) : Bool :=
  let lower := cs.map Char.toLower
  if lower == "inf".toList || lower == "infinity".toList || lower == "nan".toList then true
  else match splitAtExpCh cs with
       | (m, none) => isMantissa m
       | (m, some e) => isMantissa m && isExpPart e

/-- Whether CPython `float(s)` succeeds.  Digit-group underscores (legal
since Python 3.6) are not modelled: no fragment the emitter produces
contains them. -/
def isPyFloat (s : String) : Bool :=
  match stripWs s with
  | '+' :: r => isPyFloatCore r
  | '-' :: r => isPyFloatCore r
  | r => isPyFloatCore r

/-- Python `float(v)` on a `parse` result, reduced to success/failure:
`ValueError` (string that does not parse) is reported as `ok false`
because the source catches it; `TypeError` (`None`, `Ellipsis`) escapes.
Note `float(True) = 1.0`. -/
def floatable : PyVal → Except Err Bool
| .str s => .ok (isPyFloat s)
| .pyTrue => .ok true
| .pyFalse => .ok true
| .pyNone => .error (.typeError "float() argument must be a string or a number")
| .pyEllipsis => .error (.typeError "float() argument must be a string or a number")

/-- Python `str` requirement at points where the source concatenates,
slices or joins; interpolating a non-string there raises `TypeError`. -/
def requireStr : PyVal → Except Err String
| .str s => .ok s
| v => .error (.typeError ("expected str, got " ++ v.fmt))

/-! ## Leaf registers of the emitter -/

/-- The `_ast.Add` register: parse both sides, classify each by whether
`float()` accepts it, and produce `l + r`, a type error for a mixed pair,
or the set union `(l; r)`. -/
def parseAddV (l r : PyVal) : Except Err String :=
  match floatable l with
  | .error e => .error e
  | .ok true =>
    match floatable r with
    | .error e => .error e
    | .ok true => .ok (l.fmt ++ " + " ++ r.fmt)
    | .ok false => .error (.typeError "You cannot add a number to a set")
  | .ok false =>
    match floatable r with
    | .error e => .error e
    | .ok false => .ok ("(" ++ l.fmt ++ "; " ++ r.fmt ++ ")")
    | .ok true => .error (.typeError "You cannot add a set to a number")

/-- The `_ast.Sub` register, symmetric to `parseAddV` with the set
difference `(l; - r)`. -/
def parseSubV (l r : PyVal) : Except Err String :=
  match floatable l with
  | .error e => .error e
  | .ok true =>
    match floatable r with
    | .error e => .error e
    | .ok true => .ok (l.fmt ++ " - " ++ r.fmt)
    | .ok false => .error (.typeError "You cannot subtract a set from a number")
  | .ok false =>
    match floatable r with
    | .error e => .error e
    | .ok false => .ok ("(" ++ l.fmt ++ "; - " ++ r.fmt ++ ")")
    | .ok true => .error (.typeError "You cannot subtract a number from a set")

/-- `parse_tags(key, value)`: tag-filter construction from a parsed keyword
value.  `None` and `Ellipsis` are matched by identity/equality; any other
value is classified by the textual prefix of its `parse` result, and a
non-string (a `bool`) raises `AttributeError` at `.startswith`. -/
def parse_tags (key : String) (value : PyVal) : Except Err String :=
  match value with
  | .pyNone => .ok ("[!\"" ++ key ++ "\"]")
  | .pyEllipsis => .ok ("[\"" ++ key ++ "\"]")
  | .str v =>
    if pyStarts v "Regex(" then .ok ("[\"" ++ key ++ "\"~" ++ sliceDropLast v 6 ++ "]")
    else if pyStarts v "NotRegex(" then .ok ("[\"" ++ key ++ "\"!~" ++ sliceDropLast v 9 ++ "]")
    else .ok ("[\"" ++ key ++ "\"=\"" ++ v ++ "\"]")
  | _ => .error (.attributeError "bool object has no attribute startswith")

/-- Kind name of an AST node, as it appears in Python's default object
representation `<_ast.Kind object at 0x...>`. -/
def astKindName : Expr → String
| .name _ => "Name"
| .num _ => "Num"
| .str _ => "Str"
| .nameConst _ => "NameConstant"
| .ellipsis => "Ellipsis"
| .attr _ _ => "Attribute"
| .subscript _ _ => "Subscript"
| .binOp _ _ _ => "BinOp"
| .boolOp _ _ => "BoolOp"
| .unaryOp _ _ => "UnaryOp"
| .compare _ _ _ => "Compare"
| .ifExp _ _ _ => "IfExp"
| .call _ _ _ => "Call"

/-- Python's default `str()` of an AST node object, as interpolated by
`'is_in({}, {})'.format(*call.args)`.  The memory address is opaque and
irrelevant to every theorem below; a fixed token stands in for it. -/
def objectRepr (e : Expr) : String :=
  "<_ast." ++ astKindName e ++ " object at 0x7f0000000000>"

/-- Python `str.isnumeric()` on the ASCII fragments the emitter produces. -/
def pyIsNumeric (s : String) : Bool :=
  !s.toList.isEmpty && s.toList.all Char.isDigit

/-- First-occurrence deduplication, standing in for the construction of the
Python set of `out` channel names (set iteration order is unspecified in
Python; the claims touching `out` use at most one keyword, where every
order agrees). -/
def dedupKeys : List String → List String
| [] => []
| x :: r => x :: (dedupKeys r).filter (fun y => y != x)

/-- The two-line scaffold emitted for a conditional expression whose else
value is the empty set literal: assign, then filter the target across all
four map-object types. -/
def ifExpAllTypes (expr1 nm cond : String) : String :=
  "(" ++ expr1 ++ ";) -> " ++ nm ++ ";\n        (way" ++ nm ++ "(if: " ++ cond ++
  "); area" ++ nm ++ "(if: " ++ cond ++ "); node" ++ nm ++ "(if: " ++ cond ++
  "); relation" ++ nm ++ "(if: " ++ cond ++ ");) -> " ++ nm ++ ";"

/-- The type-specialised scaffold, emitted when the else value is exactly
one of the atoms `way`/`area`/`node`/`relation`. -/
def ifExpOneType (typ expr1 nm cond : String) : String :=
  "(" ++ expr1 ++ ";) -> " ++ nm ++ ";\n        " ++ typ ++ nm ++ "(if: " ++ cond ++
  ") -> " ++ nm ++ ";"

/-- The general conditional-expression scaffold: the all-types block, then
the else value into a companion name, then the union under the negated
condition. -/
def ifExpGeneral (expr1 expr2 nm tmpname cond : String) : String :=
  ifExpAllTypes expr1 nm cond ++
  "\n        (" ++ expr2 ++ ";) -> " ++ tmpname ++
  ";\n        (" ++ nm ++ "; way" ++ tmpname ++ "(if: !(" ++ cond ++
  ")); area" ++ tmpname ++ "(if: !(" ++ cond ++
  ")); node" ++ tmpname ++ "(if: !(" ++ cond ++
  ")); relation" ++ tmpname ++ "(if: !(" ++ cond ++ "));) -> " ++ nm ++ ";"

mutual
/-- The `parse` singledispatch on expressions.  The fuel argument only
bounds recursion depth (Python's recursion is unbounded); every theorem
either fixes it or quantifies it, and `Err.fuel` is never reached on the
inputs considered. -/
def parseE : Nat → Expr → Except Err PyVal
| 0, _ => .error .fuel
| _ + 1, .name id => .ok (.str ("." ++ id))
| _ + 1, .num n => .ok (.str (toString n))
| _ + 1, .str s => .ok (.str ("\"" ++ s ++ "\""))
| _ + 1, .nameConst .ncTrue => .ok .pyTrue
| _ + 1, .nameConst .ncFalse => .ok .pyFalse
| _ + 1, .nameConst .ncNone => .ok .pyNone
| _ + 1, .ellipsis => .ok .pyEllipsis
| f + 1, .attr v a =>
  match parseE f v with
  | .error e => .error e
  | .ok pv => .ok (.str (pv.fmt ++ "." ++ a))
| f + 1, .subscript v i =>
  match parseE f v with
  | .error e => .error e
  | .ok pv =>
    match requireStr pv with
    | .error e => .error e
    | .ok s =>
      match parseE f i with
      | .error e => .error e
      | .ok iv => .ok (.str (sliceDrop s 1 ++ "[" ++ iv.fmt ++ "]"))
| f + 1, .binOp .add l r =>
  match parseE f l with
  | .error e => .error e
  | .ok lv =>
    match parseE f r with
    | .error e => .error e
    | .ok rv =>
      match parseAddV lv rv with
      | .error e => .error e
      | .ok s => .ok (.str s)
| f + 1, .binOp .sub l r =>
  match parseE f l with
  | .error e => .error e
  | .ok lv =>
    match parseE f r with
    | .error e => .error e
    | .ok rv =>
      match parseSubV lv rv with
      | .error e => .error e
      | .ok s => .ok (.str s)
| f + 1, .binOp .mult l r =>
  match parseE f l with
  | .error e => .error e
  | .ok lv =>
    match parseE f r with
    | .error e => .error e
    | .ok rv => .ok (.str (lv.fmt ++ " * " ++ rv.fmt))
| f + 1, .binOp .div l r =>
  match parseE f l with
  | .error e => .error e
  | .ok lv =>
    match parseE f r with
    | .error e => .error e
    | .ok rv => .ok (.str (lv.fmt ++ " / " ++ rv.fmt))
| _ + 1, .binOp .floorDiv _ _ =>
  -- the FloorDiv register raises before parsing either operand
  .error (.typeError "Floor division is not supported by OverpassQL")
| _ + 1, .boolOp _ _ =>
  -- the shared BinOp/BoolOp register reads `operation.left`, which
  -- `_ast.BoolOp` (fields `op`, `values`) does not have
  .error (.attributeError "BoolOp object has no attribute left")
| f + 1, .unaryOp .uSub v =>
  match parseE f v with
  | .error e => .error e
  | .ok pv => .ok (.str ("-" ++ pv.fmt))
| f + 1, .unaryOp .uNot v =>
  match parseE f v with
  | .error e => .error e
  | .ok pv => .ok (.str ("!" ++ pv.fmt))
| f + 1, .compare l op r =>
  match parseE f l with
  | .error e => .error e
  | .ok lv =>
    match parseE f r with
    | .error e => .error e
    | .ok rv =>
      let tok := match op with
        | .ceq => " == " | .cne => " != " | .cge => " >= "
        | .cgt => " > " | .cle => " <= " | .clt => " < "
      .ok (.str (lv.fmt ++ tok ++ rv.fmt))
| f + 1, .ifExp t b oe => parseIfExpE f t b oe none
| f + 1, .call fn args kws => parseCallE f fn args kws

/-- The `IfExp` register.  Evaluation order follows the source: body, else
value, the `name` keyword (defaulting to the anonymous set `._`), then the
test. -/
def parseIfExpE : Nat → Expr → Expr → Expr → Option Expr → Except Err PyVal
| 0, _, _, _, _ => .error .fuel
| f + 1, t, b, oe, nameArg =>
  match parseE f b with
  | .error e => .error e
  | .ok pv1 =>
    match parseE f oe with
    | .error e => .error e
    | .ok pv2 =>
      match (match nameArg with
             | some x => parseE f x
             | none => .ok (PyVal.str "._")) with
      | .error e => .error e
      | .ok nv =>
        match parseE f t with
        | .error e => .error e
        | .ok cv =>
          let expr1 := pv1.fmt
          let cond := cv.fmt
          let nm := nv.fmt
          if pv2 == PyVal.str "()" then .ok (.str (ifExpAllTypes expr1 nm cond))
          else if pv2 == PyVal.str "way" then .ok (.str (ifExpOneType "way" expr1 nm cond))
          else if pv2 == PyVal.str "area" then .ok (.str (ifExpOneType "area" expr1 nm cond))
          else if pv2 == PyVal.str "node" then .ok (.str (ifExpOneType "node" expr1 nm cond))
          else if pv2 == PyVal.str "relation" then .ok (.str (ifExpOneType "relation" expr1 nm cond))
          else
            match requireStr nv with
            | .error e => .error e
            | .ok ns =>
              let tmpname := "." ++ "tmp" ++ sliceDrop ns 1
              .ok (.str (ifExpGeneral expr1 pv2.fmt nm tmpname cond))

/-- The `Call` register: strip the leading dot from the emitted function
name, short-circuit `noop`, then dispatch on whether the name is dotted. -/
def parseCallE : Nat → Expr → List Expr → List (String × Expr) → Except Err PyVal
| 0, _, _, _ => .error .fuel
| f + 1, fn, args, kws =>
  match parseE f fn with
  | .error e => .error e
  | .ok pv =>
    match requireStr pv with
    | .error e => .error e
    | .ok fs =>
      let name := sliceDrop fs 1
      if name == "noop" then .ok (.str "")
      else if hasDot name then
        match translateObjectCall f name args with
        | .error e => .error e
        | .ok s => .ok (.str s)
      else
        match translateGlobalCall f name args kws with
        | .error e => .error e
        | .ok s => .ok (.str s)

/-- `_translate_object_call`: suffix dispatch on the dotted name. -/
def translateObjectCall : Nat → String → List Expr → Except Err String
| 0, _, _ => .error .fuel
| f + 1, name, args =>
  if pyEnds name ".intersect" then
    match parseArgsStrs f args with
    | .error e => .error e
    | .ok frags =>
      .ok (lowerStr (replaceEmpty (firstComponent name) "Set") ++ joinSep "" frags)
  else if pyEnds name ".filter" then
    match args with
    | [] => .error (.indexError "list index out of range")
    | a :: _ =>
      match parseE f a with
      | .error e => .error e
      | .ok pv =>
        match requireStr pv with
        | .error e => .error e
        | .ok s => .ok (lowerStr (firstComponent name) ++ s)
  else if pyEnds name ".recurse_up" then .ok ("." ++ firstComponent name ++ " <")
  else if pyEnds name ".recurse_down" then .ok ("." ++ firstComponent name ++ " >")
  else if pyEnds name ".recurse_up_relations" then .ok ("." ++ firstComponent name ++ " <<")
  else if pyEnds name ".recurse_down_relations" then .ok ("." ++ firstComponent name ++ " >>")
  else .error (.nameError (name ++ " is not a valid Overpass type"))

/-- `_translate_global_call`: dispatch on the bare name. -/
def translateGlobalCall : Nat → String → List Expr → List (String × Expr) →
    Except Err String
| 0, _, _, _ => .error .fuel
| f + 1, name, args, kws =>
  if name == "out" then callOut f args kws
  else if name == "Set" || name == "Way" || name == "Node" || name == "Area" ||
          name == "Relation" then
    callConstructor f name args kws
  else if name == "Regex" then
    match args with
    | [] => .error (.indexError "list index out of range")
    | a :: _ =>
      match parseE f a with
      | .error e => .error e
      | .ok pv => .ok ("Regex(" ++ pv.fmt ++ ")")
  else if name == "is_in" then callIsIn f args
  else if name == "Around" then callAround f args
  else .error (.nameError (name ++ " is not a valid Overpass type"))

/-- `_call_constructor`: `Set` joins its arguments; the four locators build
their tag filters from the keywords, then dispatch on the positional-
argument count, classifying a single argument by textual shape. -/
def callConstructor : Nat → String → List Expr → List (String × Expr) →
    Except Err String
| 0, _, _, _ => .error .fuel
| f + 1, name, args, kws =>
  if name == "Set" then
    match parseArgsStrs f args with
    | .error e => .error e
    | .ok frags => .ok ("(" ++ joinSep "; " frags ++ ")")
  else
    let otype := lowerStr (firstComponent name)
    match tagsFor f kws with
    | .error e => .error e
    | .ok tags =>
      match args with
      | [a] =>
        match parseE f a with
        | .error e => .error e
        | .ok (.str s) =>
          if pyStarts s "around" then .ok (otype ++ tags ++ "(around" ++ sliceDrop s 6 ++ ")")
          else if pyIsNumeric s then .ok (otype ++ tags ++ "(" ++ s ++ ")")
          else .ok (otype ++ tags ++ "(area" ++ s ++ ")")
        | .ok _ => .error (.attributeError "object has no attribute startswith")
      | [] => .ok (otype ++ tags)
      | _ => .error (.indexError "Locator calls supports 1 or 0 positional arguments")

/-- `_call_out`: element from the optional positional argument, channel
names from the keywords, `count` pulled out onto its own line. -/
def callOut : Nat → List Expr → List (String × Expr) → Except Err String
| 0, _, _ => .error .fuel
| f + 1, args, kws =>
  match (match args with
         | [] => .ok "._"
         | a :: _ =>
           match parseE f a with
           | .error e => .error e
           | .ok pv => requireStr pv : Except Err String) with
  | .error e => .error e
  | .ok element =>
    match outKeys f kws with
    | .error e => .error e
    | .ok keys =>
      let chans := dedupKeys keys
      if chans.contains "count" then
        let ret := element ++ " out count;\n"
        let rest := chans.erase "count"
        if rest.isEmpty then .ok ret
        else .ok (ret ++ element ++ " out " ++ joinSep " " rest ++ ";")
      else .ok (element ++ " out " ++ joinSep " " chans ++ ";")

/-- `_call_is_in`.  With two arguments the source interpolates the AST
objects themselves (`'is_in({}, {})'.format(*call.args)`), not their
emitted fragments. -/
def callIsIn : Nat → List Expr → Except Err String
| 0, _ => .error .fuel
| f + 1, args =>
  match args with
  | [] => .ok "is_in"
  | [a] =>
    match parseE f a with
    | .error e => .error e
    | .ok pv =>
      match requireStr pv with
      | .error e => .error e
      | .ok s => .ok (s ++ " is_in")
  | [a, b] => .ok ("is_in(" ++ objectRepr a ++ ", " ++ objectRepr b ++ ")")
  | l => .error (.indexError ("is_in needs 0-2 arguments, " ++ Nat.repr l.length ++ " given"))

/-- `_call_around`: all arguments are parsed (the generator is unpacked by
`format`), then the first one to three are used; zero arguments make the
format call itself raise `IndexError`. -/
def callAround : Nat → List Expr → Except Err String
| 0, _ => .error .fuel
| f + 1, args =>
  match parseArgsVals f args with
  | .error e => .error e
  | .ok vals =>
    match args, vals with
    | [_], pa :: _ => .ok ("around:" ++ pa.fmt)
    | [_, _], pa :: pb :: _ => .ok ("around" ++ pa.fmt ++ ":" ++ pb.fmt)
    | _ :: _ :: _ :: _, pa :: pb :: pc :: _ =>
      .ok ("around:" ++ pa.fmt ++ "," ++ pb.fmt ++ "," ++ pc.fmt)
    | _, _ => .error (.indexError "Replacement index 0 out of range")

/-- Parse each argument, requiring a string result (the `str.join`
contexts, which raise `TypeError` on a non-string element). -/
def parseArgsStrs : Nat → List Expr → Except Err (List String)
| 0, _ => .error .fuel
| _ + 1, [] => .ok []
| f + 1, a :: rest =>
  match parseE f a with
  | .error e => .error e
  | .ok pv =>
    match requireStr pv with
    | .error e => .error e
    | .ok s =>
      match parseArgsStrs f rest with
      | .error e => .error e
      | .ok l => .ok (s :: l)

/-- Parse each argument, keeping the raw values (format contexts). -/
def parseArgsVals : Nat → List Expr → Except Err (List PyVal)
| 0, _ => .error .fuel
| _ + 1, [] => .ok []
| f + 1, a :: rest =>
  match parseE f a with
  | .error e => .error e
  | .ok pv =>
    match parseArgsVals f rest with
    | .error e => .error e
    | .ok l => .ok (pv :: l)

/-- The tag string of a constructor call:
`"".join(parse_tags(*parse(kwarg)) for kwarg in call.keywords)`. -/
def tagsFor : Nat → List (String × Expr) → Except Err String
| 0, _ => .error .fuel
| _ + 1, [] => .ok ""
| f + 1, (k, v) :: rest =>
  match parseE f v with
  | .error e => .error e
  | .ok pv =>
    match parse_tags k pv with
    | .error e => .error e
    | .ok tag =>
      match tagsFor f rest with
      | .error e => .error e
      | .ok rest2 => .ok (tag ++ rest2)

/-- The keyword names of an `out` call; each keyword's value is parsed
(for effect) exactly as `parse(kwarg)` does before the name is kept. -/
def outKeys : Nat → List (String × Expr) → Except Err (List String)
| 0, _ => .error .fuel
| _ + 1, [] => .ok []
| f + 1, (k, v) :: rest =>
  match parseE f v with
  | .error e => .error e
  | .ok _ =>
    match outKeys f rest with
    | .error e => .error e
    | .ok l => .ok (k :: l)
end

mutual
/-- The `parse` dispatch on a statement.  `If`, `Break` and `Continue`
have no register: the default register returns `None`, and every call site
joins statement strings, where the `None` raises `TypeError`; that
`TypeError` is produced here directly.  A `For`'s else clause is not
consulted at all. -/
def parseS : Nat → Stmt → Except Err String
| 0, _ => .error .fuel
| f + 1, .assign tgt v =>
  match v with
  | .ifExp t b oe =>
    match parseIfExpE f t b oe (some tgt) with
    | .error e => .error e
    | .ok pv => requireStr pv
  | v =>
    match parseE f v with
    | .error e => .error e
    | .ok pv =>
      match parseE f tgt with
      | .error e => .error e
      | .ok tv => .ok ("(" ++ pv.fmt ++ ";) -> " ++ tv.fmt ++ ";")
| f + 1, .exprStmt v =>
  match parseE f v with
  | .error e => .error e
  | .ok pv => requireStr pv
| f + 1, .sFor tgt itr body _ =>
  match parseE f itr with
  | .error e => .error e
  | .ok cv =>
    match parseE f tgt with
    | .error e => .error e
    | .ok sv =>
      match parseSList f body with
      | .error e => .error e
      | .ok strs =>
        .ok ("foreach" ++ cv.fmt ++ "->" ++ sv.fmt ++ "(\n        " ++
             joinSep "\n" strs ++ ");")
| f + 1, .bareExpr e =>
  match parseE f e with
  | .error e => .error e
  | .ok pv => requireStr pv
| _ + 1, .sIf _ _ _ => .error (.typeError "sequence item: expected str instance, NoneType found")
| _ + 1, .sBreak => .error (.typeError "sequence item: expected str instance, NoneType found")
| _ + 1, .sContinue => .error (.typeError "sequence item: expected str instance, NoneType found")

/-- Emit each statement of a list (the `'\n'.join(parse(expr) for ...)`
contexts). -/
def parseSList : Nat → List Stmt → Except Err (List String)
| 0, _ => .error .fuel
| _ + 1, [] => .ok []
| f + 1, s :: rest =>
  match parseS f s with
  | .error e => .error e
  | .ok str =>
    match parseSList f rest with
    | .error e => .error e
    | .ok strs => .ok (str :: strs)
end

/-- Header lines from a `Settings(...)` call: one `[key:value]` line per
keyword, the value dequoted when its emitted fragment starts with a
quote.  Indexing `value[0]` raises on an empty string and on a
non-string. -/
def settingsOpts : Nat → List (String × Expr) → Except Err String
| 0, _ => .error .fuel
| _ + 1, [] => .ok ""
| f + 1, (k, v) :: rest =>
  match parseE f v with
  | .error e => .error e
  | .ok pv =>
    match pv with
    | .str s =>
      match s.toList with
      | [] => .error (.indexError "string index out of range")
      | ch :: _ =>
        let line :=
          if ch == '"' then "[" ++ k ++ ":" ++ sliceDropLast s 1 ++ "]\n"
          else "[" ++ k ++ ":" ++ s ++ "]\n"
        match settingsOpts f rest with
        | .error e => .error e
        | .ok rest2 => .ok (line ++ rest2)
    | _ => .error (.typeError "object is not subscriptable")

/-- The `parse` register for lists — the compiler entry for a wrapper body
(`overpassify` on a list delegates here unchanged).  The first statement
is indexed unconditionally for the `Settings` detection, so the empty list
raises `IndexError`; a leading `Settings(...)` expression statement is
turned into header lines and removed; the remaining statements are
desugared by `transform` and emitted joined by newlines. -/
def overpassifyList (fuel : Nat) (tree : List Stmt) (c : Ctr) : Except Err String :=
  match tree with
  | [] => .error (.indexError "list index out of range")
  | t0 :: rest =>
    match (match t0 with
           | .exprStmt (.call fn _ kws) =>
             (match fn with
              | .name id => .ok (some (id, kws))
              | _ => .error (.attributeError "object has no attribute id"))
           | _ => .ok none : Except Err (Option (String × List (String × Expr)))) with
    | .error e => .error e
    | .ok info =>
      match (match info with
             | some (id, kws) => if id == "Settings" then some kws else none
             | none => none) with
      | some kws =>
        match settingsOpts fuel kws with
        | .error e => .error e
        | .ok opts =>
          match transformFuel fuel rest c with
          | .error e => .error e
          | .ok (l2, _) =>
            match parseSList fuel l2 with
            | .error e => .error e
            | .ok strs => .ok (opts ++ joinSep "\n" strs)
      | none =>
        match transformFuel fuel tree c with
        | .error e => .error e
        | .ok (l2, _) =>
          match parseSList fuel l2 with
          | .error e => .error e
          | .ok strs => .ok (joinSep "\n" strs)

/-! ## Predicates over statement trees, used to state the invariant claims -/

/-- A `Break` or `Continue` statement. -/
def isBC (s : Stmt) : Bool := isKind s .kBreak || isKind s .kContinue

/-- No `Break`/`Continue` among the list's own elements. -/
def noTopBC (l : List Stmt) : Bool := l.all (fun s => !isBC s)

mutual
/-- No `If`, `Break` or `Continue` here nor anywhere reachable through
`For` bodies.  `For` else clauses are exempt: the desugarer never looks
inside them. -/
def cleanStmt : Stmt → Bool
| .sIf _ _ _ => false
| .sBreak => false
| .sContinue => false
| .sFor _ _ body _ => cleanList body
| _ => true

/-- `cleanStmt` over a list. -/
def cleanList : List Stmt → Bool
| [] => true
| s :: rest => cleanStmt s && cleanList rest
end

/-- First positional argument of a call is a `Name` or `Num` (trivially
true for anything that is not a call with arguments). -/
def callFirstOk : Expr → Bool
| .call _ (a0 :: _) _ => isNameOrNum a0
| _ => true

mutual
/-- The normal form the emitter relies on, where the desugarer guarantees
it: every `For` iterator is a `Name`, and every call in statement position
(expression statement, assignment value, or a bare call the desugarer
inserted) has a `Name` or `Num` first positional argument — here and
anywhere reachable through `For` bodies. -/
def simpStmt : Stmt → Bool
| .sFor _ itr body _ => isNameE itr && simpList body
| .assign _ v => callFirstOk v
| .exprStmt v => callFirstOk v
| .bareExpr e => callFirstOk e
| _ => true

/-- `simpStmt` over a list. -/
def simpList : List Stmt → Bool
| [] => true
| s :: rest => simpStmt s && simpList rest
end

mutual
/-- An `If` somewhere in the tree, descending into `For` bodies *and*
else clauses. -/
def hasIfStmt : Stmt → Bool
| .sIf _ _ _ => true
| .sFor _ _ body orelse => hasIfList body || hasIfList orelse
| _ => false

/-- `hasIfStmt` over a list. -/
def hasIfList : List Stmt → Bool
| [] => false
| s :: rest => hasIfStmt s || hasIfList rest
end

mutual
/-- The claims' input precondition: every `Break`/`Continue` occurs inside
the body of some `For` (so none at this level; an `If`'s branches and a
`For`'s else clause stay at this level, a `For`'s body may contain them
freely). -/
def bcOkStmt : Stmt → Bool
| .sBreak => false
| .sContinue => false
| .sIf _ body orelse => bcOkList body && bcOkList orelse
| .sFor _ _ _ orelse => bcOkList orelse
| _ => true

/-- `bcOkStmt` over a list. -/
def bcOkList : List Stmt → Bool
| [] => true
| s :: rest => bcOkStmt s && bcOkList rest
end

/-- Statement shapes `trExpr` can append: hoisted assignments and bare
expressions. -/
def isAsgOrBare : Stmt → Bool
| .assign _ _ => true
| .bareExpr _ => true
| _ => false

/-- What a no-change pass guarantees for one statement: the counter is
untouched, the result is counter-independent, and the appended statements
are themselves a fixed point of the pass. -/
def SstmtP (s : Stmt) : Prop := ∀ c out c2, trStmt s true c = .ok (false, out, c2) →
  c2 = c ∧ (∀ d, trStmt s true d = .ok (false, out, d)) ∧
    (∀ d, trList out d = .ok (false, out, d))

/-- The list version of `SstmtP`. -/
def SlistP (L : List Stmt) : Prop := ∀ c out c2, trList L c = .ok (false, out, c2) →
  c2 = c ∧ (∀ d, trList L d = .ok (false, out, d)) ∧
    (∀ d, trList out d = .ok (false, out, d))

/-- What a no-change pass implies for the list itself: no `If` anywhere
(outside `For` else clauses), and no `Break`/`Continue` reachable through
`For` bodies, provided none sit at the outermost level. -/
def QstmtP (s : Stmt) : Prop := ∀ c out c2, trStmt s true c = .ok (false, out, c2) →
  isBC s = false → cleanStmt s = true

/-- The list version of `QstmtP`. -/
def QlistP (L : List Stmt) : Prop := ∀ c out c2, trList L c = .ok (false, out, c2) →
  noTopBC L = true → cleanList L = true

/-- What a no-change pass implies for the emitter's normal form. -/
def RstmtP (s : Stmt) : Prop := ∀ c out c2, trStmt s true c = .ok (false, out, c2) →
  simpStmt s = true

/-- The list version of `RstmtP`. -/
def RlistP (L : List Stmt) : Prop := ∀ c out c2, trList L c = .ok (false, out, c2) →
  simpList L = true

/-! ## General lemmas about the desugaring pass and the emitter -/

/-- The call register always hands back a call expression. -/
theorem trCallExpr_isCall (f : Expr) (args : List Expr) (kws : List (String × Expr))
    (c : Ctr) : isCallE (trCallExpr f args kws c).2.1 = true := by
  rw [trCallExpr]
  rcases args with _ | ⟨a0, rest⟩
  · simp [isCallE]
  · simp only [List.length_cons]
    rcases hfa : trFirstArg (a0 :: rest) c with ⟨pre, l, c1⟩
    rcases l with _ | ⟨b0, brest⟩
    · simp [isCallE]
    · by_cases hb : isNameOrNum b0 <;> simp [hb, isCallE]

/-- On a non-call head, `trFirstArg` is the identity. -/
theorem trFirstArg_nonCall (a0 : Expr) (rest : List Expr) (c : Ctr)
    (h : isCallE a0 = false) : trFirstArg (a0 :: rest) c = ([], a0 :: rest, c) := by
  cases a0
  case call => simp [isCallE] at h
  all_goals simp [trFirstArg]

/-- A no-change result of the expression register: nothing was mutated, no
nonce was drawn, the result is independent of the counter, and in the
`top` position the first positional argument of a call was already simple. -/
theorem trExpr_false (e : Expr) (top : Bool) (c : Ctr) (out : List Stmt)
    (e2 : Expr) (c2 : Ctr) (h : trExpr e top c = (false, out, e2, c2)) :
    e2 = e ∧ c2 = c ∧ (∀ d, trExpr e top d = (false, out, e, d)) ∧
      (top = true → callFirstOk e = true) ∧
      (out = [] ∨ (out = [Stmt.bareExpr e] ∧ isCallE e = false)) := by
  by_cases hcall : isCallE e
  · rcases e with _ | _ | _ | _ | _ | _ | _ | _ | _ | _ | _ | _ | ⟨f, args, kws⟩ <;>
      simp [isCallE] at hcall
    rcases args with _ | ⟨a0, rest⟩
    · rw [trExpr] at h
      simp only [List.length_nil, Bool.and_eq_false_iff] at h
      simp at h
      obtain ⟨ho, he, hc⟩ := h
      subst he hc
      refine ⟨rfl, rfl, ?_, fun _ => by simp [callFirstOk], Or.inl (by simp [ho])⟩
      intro d
      rw [trExpr]
      simp [ho]
    · cases top with
      | false =>
        rw [trExpr] at h
        simp at h
        obtain ⟨ho, he, hc⟩ := h
        subst he hc
        refine ⟨rfl, rfl, ?_, fun hh => Bool.noConfusion hh, Or.inl (by simp [ho])⟩
        intro d
        rw [trExpr]
        simp [ho]
      | true =>
        by_cases ha0 : isCallE a0
        · exfalso
          rcases a0 with _ | _ | _ | _ | _ | _ | _ | _ | _ | _ | _ | _ | ⟨f0, args0, kws0⟩ <;>
            simp [isCallE] at ha0
          rw [trExpr] at h
          simp only [trFirstArg] at h
          rcases hce : trCallExpr f0 args0 kws0 c with ⟨out1, a1, c1⟩
          have hic := trCallExpr_isCall f0 args0 kws0 c
          rw [hce] at hic
          simp only at hic
          have hnn : isNameOrNum a1 = false := by
            rcases a1 <;> simp_all [isCallE, isNameOrNum]
          simp [hce, hnn] at h
        · rw [trExpr] at h
          simp only [List.length_cons, Bool.true_and] at h
          rw [trFirstArg_nonCall a0 rest c (by simpa using ha0)] at h
          by_cases hnm : isNameOrNum a0
          · simp [hnm] at h
            obtain ⟨ho, he, hc⟩ := h
            subst he hc
            refine ⟨rfl, rfl, ?_, fun _ => by simp [callFirstOk, hnm],
              Or.inl (by simp [ho])⟩
            intro d
            rw [trExpr]
            simp only [List.length_cons, Bool.true_and]
            rw [trFirstArg_nonCall a0 rest d (by simpa using ha0)]
            simp [hnm, ho]
          · simp [hnm] at h
  · have hred : ∀ d : Ctr, trExpr e top d =
        if top then (false, [Stmt.bareExpr e], e, d) else (false, [], e, d) := by
      intro d
      rcases e
      case call f args kws => simp [isCallE] at hcall
      all_goals rw [trExpr]
      all_goals intro f args kws hh
      all_goals exact Expr.noConfusion hh
    rw [hred c] at h
    have hcf : callFirstOk e = true := by
      rcases e
      case call f args kws => simp [isCallE] at hcall
      all_goals simp [callFirstOk]
    have hcb : isCallE e = false := by simpa using hcall
    cases top <;> simp at h <;> obtain ⟨ho, he, hc⟩ := h <;> subst he hc
    · exact ⟨rfl, rfl, fun d => by rw [hred d]; simp [ho], fun _ => hcf,
        Or.inl (by simp [ho])⟩
    · exact ⟨rfl, rfl, fun d => by rw [hred d]; simp [ho], fun _ => hcf,
        Or.inr ⟨by simp [ho], hcb⟩⟩

/-- Reduction of the expression register on anything that is not a call:
the default register, which appends a copy when `top` is set. -/
theorem trExpr_nonCall (e : Expr) (h : isCallE e = false) (top : Bool) (d : Ctr) :
    trExpr e top d = if top then (false, [Stmt.bareExpr e], e, d) else (false, [], e, d) := by
  rcases e
  case call f args kws => simp [isCallE] at h
  all_goals rw [trExpr]
  all_goals intro f args kws hh
  all_goals exact Expr.noConfusion hh

/-- Everything the call register appends is a hoisted assignment or a bare
expression. -/
theorem trOut_shape : ∀ n : Nat, ∀ args : List Expr, sizeOf args ≤ n → ∀ c : Ctr,
    ((trFirstArg args c).1.all isAsgOrBare = true) ∧
    (∀ f kws, ((trCallExpr f args kws c).1.all isAsgOrBare = true)) := by
  intro n
  induction n using Nat.strong_induction_on with
  | _ n ih =>
    intro args hle c
    rcases args with _ | ⟨a0, rest⟩
    · constructor
      · simp [trFirstArg]
      · intro f kws
        rw [trCallExpr]
        simp
    · have hfa : ((trFirstArg (a0 :: rest) c).1.all isAsgOrBare = true) := by
        by_cases ha0 : isCallE a0
        · rcases a0 with _ | _ | _ | _ | _ | _ | _ | _ | _ | _ | _ | _ | ⟨f0, args0, kws0⟩ <;>
            simp [isCallE] at ha0
          have hsz : sizeOf args0 < n := by
            have h1 : sizeOf args0 < sizeOf (Expr.call f0 args0 kws0 :: rest) := by
              simp
              omega
            omega
          have hrec := (ih (sizeOf args0) hsz args0 le_rfl c).2 f0 kws0
          rw [trFirstArg]
          rcases hce : trCallExpr f0 args0 kws0 c with ⟨out1, a1, c1⟩
          rw [hce] at hrec
          simpa using hrec
        · rw [trFirstArg_nonCall a0 rest c (by simpa using ha0)]
          simp
      refine ⟨hfa, ?_⟩
      intro f kws
      rw [trCallExpr]
      simp only [List.length_cons]
      rcases hf : trFirstArg (a0 :: rest) c with ⟨pre, l, c1⟩
      rw [hf] at hfa
      simp only at hfa
      rcases l with _ | ⟨b0, brest⟩
      · simpa using hfa
      · by_cases hb : isNameOrNum b0 <;>
          simp [hb, List.all_append, hfa, isAsgOrBare]

/-- The statements appended by the expression register are assignments or
bare expressions, whatever the changed flag. -/
theorem trExpr_shape (e : Expr) (top : Bool) (c : Ctr) :
    (trExpr e top c).2.1.all isAsgOrBare = true := by
  by_cases hcall : isCallE e
  · rcases e with _ | _ | _ | _ | _ | _ | _ | _ | _ | _ | _ | _ | ⟨f, args, kws⟩ <;>
      simp [isCallE] at hcall
    rw [trExpr]
    rcases args with _ | ⟨a0, rest⟩
    · simp
    · cases top with
      | false => simp
      | true =>
        simp only [List.length_cons, Bool.true_and]
        have hfa := (trOut_shape (sizeOf (a0 :: rest)) (a0 :: rest) le_rfl c).1
        rcases hf : trFirstArg (a0 :: rest) c with ⟨pre, l, c1⟩
        rw [hf] at hfa
        simp only at hfa
        rcases l with _ | ⟨b0, brest⟩
        · simpa using hfa
        · by_cases hb : isNameOrNum b0 <;>
            simp [hb, List.all_append, hfa, isAsgOrBare]
  · rw [trExpr_nonCall e (by simpa using hcall) top c]
    cases top <;> simp [isAsgOrBare]

/-- Hoisted statements are not `Break`/`Continue`. -/
theorem asgOrBare_noTopBC (l : List Stmt) (h : l.all isAsgOrBare = true) :
    noTopBC l = true := by
  induction l with
  | nil => simp [noTopBC]
  | cons s rest ihr =>
    simp only [List.all_cons, Bool.and_eq_true] at h
    have h2 := ihr h.2
    simp only [noTopBC, List.all_cons, Bool.and_eq_true]
    refine ⟨?_, by simpa [noTopBC] using h2⟩
    rcases s <;> simp [isAsgOrBare] at h ⊢ <;> simp [isBC, isKind]

/-- Hoisted statements are clean. -/
theorem asgOrBare_clean (l : List Stmt) (h : l.all isAsgOrBare = true) :
    cleanList l = true := by
  induction l with
  | nil => simp [cleanList]
  | cons s rest ihr =>
    simp only [List.all_cons, Bool.and_eq_true] at h
    have h2 := ihr h.2
    rw [cleanList]
    rcases s <;> simp [isAsgOrBare] at h <;> simp [cleanStmt, h2]

/-- `List.all` survives `dropLast`. -/
theorem all_dropLast {p : Stmt → Bool} (l : List Stmt) (h : l.all p = true) :
    l.dropLast.all p = true := by
  rw [List.all_eq_true] at h ⊢
  intro x hx
  exact h x ((List.dropLast_sublist l).subset hx)

/-- Composition of one `_transform` pass over an appended list. -/
theorem trList_append (xs ys : List Stmt) (c : Ctr) (bx : Bool) (ox : List Stmt)
    (cx : Ctr) (hy : Bool) (oy : List Stmt) (cy : Ctr)
    (h1 : trList xs c = .ok (bx, ox, cx)) (h2 : trList ys cx = .ok (hy, oy, cy)) :
    trList (xs ++ ys) c = .ok (bx || hy, ox ++ oy, cy) := by
  induction xs generalizing c bx ox with
  | nil =>
    rw [trList] at h1
    simp at h1
    obtain ⟨hb, ho, hc⟩ := h1
    subst hb
    subst hc
    subst ho
    simpa using h2
  | cons s rest ihr =>
    rw [trList] at h1
    rcases hs : trStmt s true c with e1 | ⟨b1, o1, k1⟩ <;> simp only [hs] at h1
    · cases h1
    · rcases hr : trList rest k1 with e2 | ⟨b2, o2, k2⟩ <;> simp only [hr] at h1
      · cases h1
      · simp at h1
        obtain ⟨hb, ho, hc⟩ := h1
        subst hb
        subst hc
        subst ho
        have h3 := ihr k1 b2 o2 hr
        rw [List.cons_append, trList]
        simp only [hs, h3]
        simp [Bool.or_assoc, List.append_assoc]

/-- A singleton list steps exactly as its statement does. -/
theorem trList_singleton (s : Stmt) (d : Ctr) (b : Bool) (o : List Stmt) (k : Ctr)
    (h : trStmt s true d = .ok (b, o, k)) : trList [s] d = .ok (b, o, k) := by
  rw [trList]
  simp only [h]
  rw [trList]
  simp

theorem stabAux : ∀ n : Nat, (∀ s : Stmt, sizeOf s ≤ n → SstmtP s) ∧
    (∀ L : List Stmt, sizeOf L ≤ n → SlistP L) := by
  intro n
  induction n using Nat.strong_induction_on with
  | _ n ih =>
    constructor
    · intro s hs c out c2 h
      match s with
      | .sIf test body orelse =>
        exfalso
        rw [trStmt] at h
        by_cases horl : 0 < orelse.length <;> simp [horl] at h
      | .sBreak =>
        rw [trStmt] at h
        simp at h
        obtain ⟨ho, hc⟩ := h
        subst ho
        subst hc
        exact ⟨rfl, fun d => by rw [trStmt]; simp,
          fun d => trList_singleton _ _ _ _ _ (by rw [trStmt]; simp)⟩
      | .sContinue =>
        rw [trStmt] at h
        simp at h
        obtain ⟨ho, hc⟩ := h
        subst ho
        subst hc
        exact ⟨rfl, fun d => by rw [trStmt]; simp,
          fun d => trList_singleton _ _ _ _ _ (by rw [trStmt]; simp)⟩
      | .bareExpr e =>
        rw [trStmt] at h
        rcases he : trExpr e true c with ⟨chg, nb, e1, c1⟩
        simp only [he] at h
        simp at h
        obtain ⟨hchg, ho, hc⟩ := h
        subst hchg
        obtain ⟨he1, hc1, hrer, hcf, hshape⟩ := trExpr_false e true c nb e1 c1 he
        subst hc1
        subst ho
        subst hc
        refine ⟨rfl, fun d => by rw [trStmt]; simp [hrer d], ?_⟩
        intro d
        rcases hshape with hnil | ⟨hbare, hnc⟩
        · subst hnil
          rw [trList]
        · subst hbare
          exact trList_singleton _ _ _ _ _ (by rw [trStmt]; simp [hrer d])
      | .exprStmt v =>
        rw [trStmt] at h
        rcases he : trExpr v true c with ⟨chg, nb, v1, c1⟩
        simp only [he] at h
        rcases chg <;> simp at h
        obtain ⟨ho, hc⟩ := h
        obtain ⟨hv1, hc1, hrer, hcf, hshape⟩ := trExpr_false v true c nb v1 c1 he
        subst hv1
        subst hc1
        subst ho
        subst hc
        refine ⟨rfl, fun d => by rw [trStmt]; simp [hrer d], ?_⟩
        intro d
        exact trList_singleton _ _ _ _ _ (by rw [trStmt]; simp [hrer d])
      | .assign tgt v =>
        rw [trStmt] at h
        rcases he : trExpr v true c with ⟨chg, nb, v1, c1⟩
        simp only [he] at h
        rcases chg <;> simp at h
        obtain ⟨ho, hc⟩ := h
        obtain ⟨hv1, hc1, hrer, hcf, hshape⟩ := trExpr_false v true c nb v1 c1 he
        subst hv1
        subst hc1
        subst ho
        subst hc
        refine ⟨rfl, fun d => by rw [trStmt]; simp [hrer d], ?_⟩
        intro d
        exact trList_singleton _ _ _ _ _ (by rw [trStmt]; simp [hrer d])
      | .sFor tgt itr body orelse =>
        rw [trStmt] at h
        by_cases hsb : scanList body Kind.kBreak
        · exfalso
          rcases htb : transformBreak tgt itr body orelse c with ⟨outs, c1⟩
          simp [hsb, htb] at h
        · by_cases hsc : scanList body Kind.kContinue
          · exfalso
            rcases htc : transformContinue tgt itr body orelse c with e1 | ⟨outs, c1⟩ <;>
              simp [hsb, hsc, htc] at h
          · rcases hb : trList body c with e1 | ⟨chg, nb, c1⟩
            · exfalso
              simp [hsb, hsc, hb] at h
            · simp only [hsb, hsc, hb, if_false, Bool.false_eq_true] at h
              rcases chg <;> simp at h
              by_cases hname : isNameE itr
              · simp only [hname, Bool.not_true, Bool.false_eq_true, if_false, if_true] at h
                simp at h
                obtain ⟨ho, hc⟩ := h
                subst ho
                subst hc
                have hszb : sizeOf body < n := by
                  have : sizeOf body < sizeOf (Stmt.sFor tgt itr body orelse) := by
                    simp
                    omega
                  omega
                obtain ⟨hc1, hrer, _⟩ := (ih (sizeOf body) hszb).2 body le_rfl c nb c1 hb
                subst hc1
                have hstep : ∀ d, trStmt (Stmt.sFor tgt itr body orelse) true d =
                    .ok (false, [Stmt.sFor tgt itr body orelse], d) := by
                  intro d
                  rw [trStmt]
                  simp [hsb, hsc, hrer d, hname]
                exact ⟨rfl, hstep, fun d => trList_singleton _ _ _ _ _ (hstep d)⟩
              · exfalso
                simp [hname] at h
    · intro L hL c out c2 h
      match L with
      | [] =>
        rw [trList] at h
        simp at h
        obtain ⟨ho, hc⟩ := h
        subst ho
        subst hc
        exact ⟨rfl, fun d => by rw [trList], fun d => by rw [trList]⟩
      | s :: rest =>
        rw [trList] at h
        rcases hs : trStmt s true c with e1 | ⟨b1, o1, k1⟩ <;> simp only [hs] at h
        · cases h
        · rcases hr : trList rest k1 with e2 | ⟨b2, o2, k2⟩ <;> simp only [hr] at h
          · cases h
          · simp at h
            obtain ⟨⟨hb1, hb2⟩, ho, hc⟩ := h
            rw [hb1] at hs
            rw [hb2] at hr
            subst ho
            subst hc
            have hszs : sizeOf s < n := by
              have : sizeOf s < sizeOf (s :: rest) := by
                simp only [List.cons.sizeOf_spec]
                omega
              omega
            have hszr : sizeOf rest < n := by
              have : sizeOf rest < sizeOf (s :: rest) := by
                simp only [List.cons.sizeOf_spec]
                omega
              omega
            obtain ⟨hk1, hres, hrstab⟩ := (ih (sizeOf s) hszs).1 s le_rfl c o1 k1 hs
            obtain ⟨hk2, hrres, hrrstab⟩ := (ih (sizeOf rest) hszr).2 rest le_rfl k1 o2 k2 hr
            subst hk2
            subst hk1
            refine ⟨rfl, ?_, ?_⟩
            · intro d
              rw [trList]
              simp [hres d, hrres d]
            · intro d
              simpa using trList_append o1 o2 d false o1 d false o2 d (hrstab d) (hrrstab d)

/-- Stability of a no-change pass, for any list. -/
theorem trList_stab (L : List Stmt) : SlistP L := (stabAux (sizeOf L)).2 L le_rfl

/-- If neither kind is scanned in a list, none of its own elements is a
`Break` or `Continue`. -/
theorem scan_noTopBC (L : List Stmt) (hB : scanList L Kind.kBreak = false)
    (hC : scanList L Kind.kContinue = false) : noTopBC L = true := by
  induction L with
  | nil => simp [noTopBC]
  | cons s rest ihr =>
    rw [scanList] at hB hC
    simp only [Bool.or_eq_false_iff] at hB hC
    simp only [noTopBC, List.all_cons, Bool.and_eq_true]
    refine ⟨?_, by simpa [noTopBC] using ihr hB.2 hC.2⟩
    simp [isBC, hB.1.1, hC.1.1]

theorem cleanAux : ∀ n : Nat, (∀ s : Stmt, sizeOf s ≤ n → QstmtP s) ∧
    (∀ L : List Stmt, sizeOf L ≤ n → QlistP L) := by
  intro n
  induction n using Nat.strong_induction_on with
  | _ n ih =>
    constructor
    · intro s hsz c out c2 h hbc
      match s with
      | .sIf test body orelse =>
        exfalso
        rw [trStmt] at h
        by_cases horl : 0 < orelse.length <;> simp [horl] at h
      | .sBreak => simp [isBC, isKind] at hbc
      | .sContinue => simp [isBC, isKind] at hbc
      | .assign tgt v => simp [cleanStmt]
      | .exprStmt v => simp [cleanStmt]
      | .bareExpr e => simp [cleanStmt]
      | .sFor tgt itr body orelse =>
        rw [trStmt] at h
        by_cases hsb : scanList body Kind.kBreak
        · exfalso
          rcases htb : transformBreak tgt itr body orelse c with ⟨outs, c1⟩
          simp [hsb, htb] at h
        · by_cases hsc : scanList body Kind.kContinue
          · exfalso
            rcases htc : transformContinue tgt itr body orelse c with e1 | ⟨outs, c1⟩ <;>
              simp [hsb, hsc, htc] at h
          · rcases hb : trList body c with e1 | ⟨chg, nb, c1⟩
            · exfalso
              simp [hsb, hsc, hb] at h
            · simp only [hsb, hsc, hb, if_false, Bool.false_eq_true] at h
              rcases chg <;> simp at h
              have hszb : sizeOf body < n := by
                have : sizeOf body < sizeOf (Stmt.sFor tgt itr body orelse) := by
                  simp only [Stmt.sFor.sizeOf_spec]
                  omega
                omega
              have hclean := (ih (sizeOf body) hszb).2 body le_rfl c nb c1 hb
                (scan_noTopBC body (by simpa using hsb) (by simpa using hsc))
              rw [cleanStmt]
              exact hclean
    · intro L hsz c out c2 h hbc
      match L with
      | [] => rw [cleanList]
      | s :: rest =>
        rw [trList] at h
        rcases hs : trStmt s true c with e1 | ⟨b1, o1, k1⟩ <;> simp only [hs] at h
        · cases h
        · rcases hr : trList rest k1 with e2 | ⟨b2, o2, k2⟩ <;> simp only [hr] at h
          · cases h
          · simp at h
            obtain ⟨⟨hb1, hb2⟩, ho, hc⟩ := h
            rw [hb1] at hs
            rw [hb2] at hr
            simp only [noTopBC, List.all_cons, Bool.and_eq_true] at hbc
            have hszs : sizeOf s < n := by
              have : sizeOf s < sizeOf (s :: rest) := by
                simp only [List.cons.sizeOf_spec]
                omega
              omega
            have hszr : sizeOf rest < n := by
              have : sizeOf rest < sizeOf (s :: rest) := by
                simp only [List.cons.sizeOf_spec]
                omega
              omega
            have h1 := (ih (sizeOf s) hszs).1 s le_rfl c o1 k1 hs
              (by simpa using hbc.1)
            have h2 := (ih (sizeOf rest) hszr).2 rest le_rfl k1 o2 k2 hr
              (by simpa [noTopBC] using hbc.2)
            rw [cleanList]
            simp [h1, h2]

theorem simpAux : ∀ n : Nat, (∀ s : Stmt, sizeOf s ≤ n → RstmtP s) ∧
    (∀ L : List Stmt, sizeOf L ≤ n → RlistP L) := by
  intro n
  induction n using Nat.strong_induction_on with
  | _ n ih =>
    constructor
    · intro s hsz c out c2 h
      match s with
      | .sIf test body orelse =>
        exfalso
        rw [trStmt] at h
        by_cases horl : 0 < orelse.length <;> simp [horl] at h
      | .sBreak => simp [simpStmt]
      | .sContinue => simp [simpStmt]
      | .assign tgt v =>
        rw [trStmt] at h
        rcases he : trExpr v true c with ⟨chg, nb, v1, c1⟩
        simp only [he] at h
        rcases chg <;> simp at h
        obtain ⟨hv1, hc1, hrer, hcf, hshape⟩ := trExpr_false v true c nb v1 c1 he
        rw [simpStmt]
        exact hcf rfl
      | .exprStmt v =>
        rw [trStmt] at h
        rcases he : trExpr v true c with ⟨chg, nb, v1, c1⟩
        simp only [he] at h
        rcases chg <;> simp at h
        obtain ⟨hv1, hc1, hrer, hcf, hshape⟩ := trExpr_false v true c nb v1 c1 he
        rw [simpStmt]
        exact hcf rfl
      | .bareExpr e =>
        rw [trStmt] at h
        rcases he : trExpr e true c with ⟨chg, nb, e1, c1⟩
        simp only [he] at h
        simp at h
        obtain ⟨hchg, ho, hc⟩ := h
        subst hchg
        obtain ⟨he1, hc1, hrer, hcf, hshape⟩ := trExpr_false e true c nb e1 c1 he
        rw [simpStmt]
        exact hcf rfl
      | .sFor tgt itr body orelse =>
        rw [trStmt] at h
        by_cases hsb : scanList body Kind.kBreak
        · exfalso
          rcases htb : transformBreak tgt itr body orelse c with ⟨outs, c1⟩
          simp [hsb, htb] at h
        · by_cases hsc : scanList body Kind.kContinue
          · exfalso
            rcases htc : transformContinue tgt itr body orelse c with e1 | ⟨outs, c1⟩ <;>
              simp [hsb, hsc, htc] at h
          · rcases hb : trList body c with e1 | ⟨chg, nb, c1⟩
            · exfalso
              simp [hsb, hsc, hb] at h
            · simp only [hsb, hsc, hb, if_false, Bool.false_eq_true] at h
              rcases chg <;> simp at h
              by_cases hname : isNameE itr
              · have hszb : sizeOf body < n := by
                  have : sizeOf body < sizeOf (Stmt.sFor tgt itr body orelse) := by
                    simp only [Stmt.sFor.sizeOf_spec]
                    omega
                  omega
                have hsimp := (ih (sizeOf body) hszb).2 body le_rfl c nb c1 hb
                rw [simpStmt]
                simp [hname, hsimp]
              · exfalso
                simp [hname] at h
    · intro L hsz c out c2 h
      match L with
      | [] => rw [simpList]
      | s :: rest =>
        rw [trList] at h
        rcases hs : trStmt s true c with e1 | ⟨b1, o1, k1⟩ <;> simp only [hs] at h
        · cases h
        · rcases hr : trList rest k1 with e2 | ⟨b2, o2, k2⟩ <;> simp only [hr] at h
          · cases h
          · simp at h
            obtain ⟨⟨hb1, hb2⟩, ho, hc⟩ := h
            rw [hb1] at hs
            rw [hb2] at hr
            have hszs : sizeOf s < n := by
              have : sizeOf s < sizeOf (s :: rest) := by
                simp only [List.cons.sizeOf_spec]
                omega
              omega
            have hszr : sizeOf rest < n := by
              have : sizeOf rest < sizeOf (s :: rest) := by
                simp only [List.cons.sizeOf_spec]
                omega
              omega
            have h1 := (ih (sizeOf s) hszs).1 s le_rfl c o1 k1 hs
            have h2 := (ih (sizeOf rest) hszr).2 rest le_rfl k1 o2 k2 hr
            rw [simpList]
            simp [h1, h2]

/-- One pass never puts a `Break`/`Continue` at the top level, provided
the statement itself is not one. -/
theorem trStmt_noTopBC (s : Stmt) (c : Ctr) (hbc : isBC s = false) :
    ∀ b o k, trStmt s true c = .ok (b, o, k) → noTopBC o = true := by
  intro b o k h
  match s with
  | .sBreak => simp [isBC, isKind] at hbc
  | .sContinue => simp [isBC, isKind] at hbc
  | .sIf test body orelse =>
    rw [trStmt] at h
    by_cases horl : 0 < orelse.length <;> simp [horl] at h <;>
      obtain ⟨_, ho, _⟩ := h <;> subst ho <;>
      simp [noTopBC, isBC, isKind]
  | .assign tgt v =>
    rw [trStmt] at h
    rcases he : trExpr v true c with ⟨chg, nb, v1, c1⟩
    simp only [he] at h
    have hshape : nb.all isAsgOrBare = true := by
      have := trExpr_shape v true c
      rw [he] at this
      simpa using this
    rcases chg <;> simp at h
    · obtain ⟨hbb, ho, hk⟩ := h
      rw [← ho]
      simp [noTopBC, isBC, isKind]
    · obtain ⟨hbb, ho, hk⟩ := h
      rw [← ho, noTopBC, List.all_append]
      have h1 := asgOrBare_noTopBC _ (all_dropLast nb hshape)
      rw [noTopBC] at h1
      rw [Bool.and_eq_true]
      exact ⟨h1, by simp [isBC, isKind]⟩
  | .exprStmt v =>
    rw [trStmt] at h
    rcases he : trExpr v true c with ⟨chg, nb, v1, c1⟩
    simp only [he] at h
    have hshape : nb.all isAsgOrBare = true := by
      have := trExpr_shape v true c
      rw [he] at this
      simpa using this
    rcases chg <;> simp at h
    · obtain ⟨hbb, ho, hk⟩ := h
      rw [← ho]
      simp [noTopBC, isBC, isKind]
    · obtain ⟨hbb, ho, hk⟩ := h
      rw [← ho]
      exact asgOrBare_noTopBC _ hshape
  | .bareExpr e =>
    rw [trStmt] at h
    rcases he : trExpr e true c with ⟨chg, nb, e1, c1⟩
    simp only [he] at h
    have hshape : nb.all isAsgOrBare = true := by
      have := trExpr_shape e true c
      rw [he] at this
      simpa using this
    simp at h
    obtain ⟨_, ho, _⟩ := h
    rw [← ho]
    exact asgOrBare_noTopBC _ hshape
  | .sFor tgt itr body orelse =>
    rw [trStmt] at h
    by_cases hsb : scanList body Kind.kBreak
    · rw [transformBreak] at h
      by_cases horl : 0 < orelse.length <;> simp [hsb, horl] at h <;>
        obtain ⟨_, ho, _⟩ := h <;> subst ho <;>
        simp [noTopBC, isBC, isKind]
    · by_cases hsc : scanList body Kind.kContinue
      · rw [transformContinue] at h
        rcases htc : tcBody ("tmpcontinue" ++ Nat.repr (draw c).1) body with e1 | w <;>
          simp [hsb, hsc, htc] at h
        obtain ⟨_, ho, _⟩ := h
        subst ho
        simp [noTopBC, isBC, isKind]
      · rcases hb : trList body c with e1 | ⟨chg, nb, c1⟩
        · simp [hsb, hsc, hb] at h
        · simp only [hsb, hsc, hb, if_false, Bool.false_eq_true] at h
          rcases chg <;> simp at h
          · by_cases hname : isNameE itr <;> simp [hname] at h <;>
              obtain ⟨_, ho, _⟩ := h <;> subst ho <;>
              simp [noTopBC, isBC, isKind]
          · obtain ⟨_, ho, _⟩ := h
            subst ho
            simp [noTopBC, isBC, isKind]

/-- One pass preserves the absence of top-level `Break`/`Continue`. -/
theorem trList_noTopBC (L : List Stmt) : ∀ c, noTopBC L = true →
    ∀ b o k, trList L c = .ok (b, o, k) → noTopBC o = true := by
  induction L with
  | nil =>
    intro c _ b o k h
    rw [trList] at h
    simp at h
    obtain ⟨_, ho, _⟩ := h
    subst ho
    simp [noTopBC]
  | cons s rest ihr =>
    intro c hL b o k h
    simp only [noTopBC, List.all_cons, Bool.and_eq_true] at hL
    rw [trList] at h
    rcases hs : trStmt s true c with e1 | ⟨b1, o1, k1⟩ <;> simp only [hs] at h
    · cases h
    · rcases hr : trList rest k1 with e2 | ⟨b2, o2, k2⟩ <;> simp only [hr] at h
      · cases h
      · simp at h
        obtain ⟨_, ho, _⟩ := h
        subst ho
        have h1 := trStmt_noTopBC s c (by simpa using hL.1) b1 o1 k1 hs
        have h2 := ihr k1 (by simpa [noTopBC] using hL.2) b2 o2 k2 hr
        rw [noTopBC, List.all_append]
        rw [noTopBC] at h1 h2
        simp [h1, h2]

/-- Any result of the fixed-point loop is itself a fixed point of the
pass, independently of the counter. -/
theorem transformFuel_fix : ∀ (n : Nat) (b : List Stmt) (c : Ctr) (L : List Stmt)
    (c2 : Ctr), transformFuel n b c = .ok (L, c2) →
    ∀ d, trList L d = .ok (false, L, d) := by
  intro n
  induction n with
  | zero => intro b c L c2 h; cases h
  | succ f ihf =>
    intro b c L c2 h
    rw [transformFuel] at h
    rcases hb : trList b c with e1 | ⟨chg, out, c1⟩ <;> simp only [hb] at h
    · cases h
    · rcases chg <;> simp at h
      · obtain ⟨ho, _⟩ := h
        intro d
        rw [← ho]
        exact ((trList_stab b) c out c1 hb).2.2 d
      · exact ihf out c1 L c2 h

/-- The fixed-point loop preserves the absence of top-level
`Break`/`Continue`. -/
theorem transformFuel_noTopBC : ∀ (n : Nat) (b : List Stmt) (c : Ctr)
    (L : List Stmt) (c2 : Ctr), noTopBC b = true →
    transformFuel n b c = .ok (L, c2) → noTopBC L = true := by
  intro n
  induction n with
  | zero => intro b c L c2 _ h; cases h
  | succ f ihf =>
    intro b c L c2 hb h
    rw [transformFuel] at h
    rcases hstep : trList b c with e1 | ⟨chg, out, c1⟩ <;> simp only [hstep] at h
    · cases h
    · have hout := trList_noTopBC b c hb chg out c1 hstep
      rcases chg <;> simp at h
      · obtain ⟨ho, _⟩ := h
        subst ho
        exact hout
      · exact ihf out c1 L c2 hout h

/-- The claims' precondition (`Break`/`Continue` only inside `For` bodies)
implies there are none at the outermost level. -/
theorem bcOk_noTopBC (L : List Stmt) (h : bcOkList L = true) : noTopBC L = true := by
  induction L with
  | nil => simp [noTopBC]
  | cons s rest ihr =>
    rw [bcOkList] at h
    simp only [Bool.and_eq_true] at h
    simp only [noTopBC, List.all_cons, Bool.and_eq_true]
    refine ⟨?_, by simpa [noTopBC] using ihr h.2⟩
    have h1 := h.1
    rcases s <;> simp [bcOkStmt] at h1 ⊢ <;> simp [isBC, isKind]

/-- A string starts with its own prefix (with any two suffixes appended). -/
theorem pyStarts_concat2 (pre a b : String) : pyStarts (pre ++ a ++ b) pre = true := by
  rw [pyStarts]
  have hd : (pre ++ a ++ b).toList = pre.toList ++ (a.toList ++ b.toList) := by
    show (pre ++ a ++ b).data = pre.data ++ (a.data ++ b.data)
    rw [String.data_append, String.data_append, List.append_assoc]
  rw [hd, List.take_left]
  simp

/-- Slicing `pre ++ x ++ ")"` from the length of `pre` to the last
character recovers `x` (Python `v[len(pre):-1]`). -/
theorem sliceDropLast_concat (pre x : String) :
    sliceDropLast (pre ++ x ++ ")") pre.toList.length = x := by
  rw [sliceDropLast]
  have hd : (pre ++ x ++ ")").toList = pre.toList ++ (x.toList ++ [')']) := by
    show (pre ++ x ++ ")").data = pre.data ++ (x.data ++ ")".data)
    rw [String.data_append, String.data_append, List.append_assoc]
  rw [hd, List.drop_left, List.dropLast_concat]
  show String.mk x.data = x
  rfl

/-- `"NotRegex(..."` does not start with `"Regex("`. -/
theorem notRegex_not_regex (x : String) :
    pyStarts ("NotRegex(" ++ x ++ ")") "Regex(" = false := by
  rw [pyStarts]
  have hd : ("NotRegex(" ++ x ++ ")").toList =
      "NotRegex(".toList ++ (x.toList ++ [')']) := by
    show ("NotRegex(" ++ x ++ ")").data = "NotRegex(".data ++ (x.data ++ ")".data)
    rw [String.data_append, String.data_append, List.append_assoc]
  rw [hd]
  rw [show ("Regex(".toList.length) = 6 from rfl]
  rw [List.take_append_of_le_length (by decide)]
  decide

/-- The `Regex` row of `parse_tags`. -/
theorem parse_tags_regex (key x : String) :
    parse_tags key (.str ("Regex(" ++ x ++ ")")) =
      .ok ("[\"" ++ key ++ "\"~" ++ x ++ "]") := by
  rw [parse_tags]
  rw [pyStarts_concat2 "Regex(" x ")"]
  have hs := sliceDropLast_concat "Regex(" x
  rw [show ("Regex(" : String).toList.length = 6 from rfl] at hs
  simp [hs]

/-- The `NotRegex` row of `parse_tags`. -/
theorem parse_tags_notRegex (key x : String) :
    parse_tags key (.str ("NotRegex(" ++ x ++ ")")) =
      .ok ("[\"" ++ key ++ "\"!~" ++ x ++ "]") := by
  rw [parse_tags]
  rw [notRegex_not_regex x]
  rw [pyStarts_concat2 "NotRegex(" x ")"]
  have hs := sliceDropLast_concat "NotRegex(" x
  rw [show ("NotRegex(" : String).toList.length = 9 from rfl] at hs
  simp [hs]

/-! ## The claims -/

/-- Claim C1 (amended): under the precondition that `Break`/`Continue`
occur only inside `For` bodies, the desugared list contains no `If`,
`Break` or `Continue` anywhere outside `For` else clauses. -/
theorem c1_transform_eliminates_if_break_continue (n : Nat) (b : List Stmt)
    (c : Ctr) (L : List Stmt) (c2 : Ctr) (hbc : bcOkList b = true)
    (h : transformFuel n b c = .ok (L, c2)) : cleanList L = true := by
  have hfix := transformFuel_fix n b c L c2 h 0
  have hnb := transformFuel_noTopBC n b c L c2 (bcOk_noTopBC b hbc) h
  exact (cleanAux (sizeOf L)).2 L le_rfl 0 L 0 hfix hnb

/-- Witness for C1 on the two-statement body of scenario S1. -/
theorem c1_clean_witness :
    bcOkList [.assign (.name "x") (.call (.name "Node") [.num 1] []),
              .exprStmt (.call (.name "out") [.name "x"] [])] = true ∧
    transformFuel 3 [.assign (.name "x") (.call (.name "Node") [.num 1] []),
                     .exprStmt (.call (.name "out") [.name "x"] [])] 0 =
      .ok ([.assign (.name "x") (.call (.name "Node") [.num 1] []),
            .exprStmt (.call (.name "out") [.name "x"] [])], 0) ∧
    cleanList [.assign (.name "x") (.call (.name "Node") [.num 1] []),
               .exprStmt (.call (.name "out") [.name "x"] [])] = true :=
  ⟨by decide,
   by simp [transformFuel, trList, trStmt, trExpr, trFirstArg, isNameOrNum],
   c1_transform_eliminates_if_break_continue 3
     [.assign (.name "x") (.call (.name "Node") [.num 1] []),
      .exprStmt (.call (.name "out") [.name "x"] [])] 0
     [.assign (.name "x") (.call (.name "Node") [.num 1] []),
      .exprStmt (.call (.name "out") [.name "x"] [])] 0 (by decide)
     (by simp [transformFuel, trList, trStmt, trExpr, trFirstArg, isNameOrNum])⟩

/-- Counterexample to C1 as stated: a `For` whose else clause holds an
`If` is a fixed point of the desugarer (the pass never looks inside
`For.orelse`), satisfies the claim's precondition, and the compiler
accepts it, yet an `If` survives in the output. -/
theorem c1_if_in_for_else_survives :
    transformFuel 3 [.sFor (.name "e") (.name "s")
        [.exprStmt (.call (.name "noop") [] [])]
        [.sIf (.name "c") [.exprStmt (.call (.name "noop") [] [])] []]] 0 =
      .ok ([.sFor (.name "e") (.name "s")
        [.exprStmt (.call (.name "noop") [] [])]
        [.sIf (.name "c") [.exprStmt (.call (.name "noop") [] [])] []]], 0) ∧
    bcOkList [.sFor (.name "e") (.name "s")
        [.exprStmt (.call (.name "noop") [] [])]
        [.sIf (.name "c") [.exprStmt (.call (.name "noop") [] [])] []]] = true ∧
    hasIfList [.sFor (.name "e") (.name "s")
        [.exprStmt (.call (.name "noop") [] [])]
        [.sIf (.name "c") [.exprStmt (.call (.name "noop") [] [])] []]] = true ∧
    (overpassifyList 10 [.sFor (.name "e") (.name "s")
        [.exprStmt (.call (.name "noop") [] [])]
        [.sIf (.name "c") [.exprStmt (.call (.name "noop") [] [])] []]] 0).isOk
      = true := by
  refine ⟨?_, by decide, by decide, ?_⟩
  · simp [transformFuel, trList, trStmt, trExpr, scanList, scanStmt, isKind,
      isNameE]
  · simp [overpassifyList, transformFuel, trList, trStmt, trExpr, scanList,
      scanStmt, isKind, isNameE, parseSList, parseS, parseE, parseCallE,
      requireStr, sliceDrop, hasDot, joinSep, PyVal.fmt, Except.isOk,
      Except.toBool]

/-- Claim C2 (amended): every desugared list is in the emitter's normal
form — outside `For` else clauses every `For` iterator is a `Name`, and
every call in statement position has a `Name` or `Num` FIRST positional
argument (later positional arguments are not hoisted). -/
theorem c2_transform_normal_form (n : Nat) (b : List Stmt) (c : Ctr)
    (L : List Stmt) (c2 : Ctr) (h : transformFuel n b c = .ok (L, c2)) :
    simpList L = true := by
  have hfix := transformFuel_fix n b c L c2 h 0
  exact (simpAux (sizeOf L)).2 L le_rfl 0 L 0 hfix

/-- Witness for C2 on a statement-position call. -/
theorem c2_normal_form_witness :
    transformFuel 2 [.exprStmt (.call (.name "Set") [.name "x", .str "a"] [])] 0 =
      .ok ([.exprStmt (.call (.name "Set") [.name "x", .str "a"] [])], 0) ∧
    simpList [.exprStmt (.call (.name "Set") [.name "x", .str "a"] [])] = true :=
  ⟨by simp [transformFuel, trList, trStmt, trExpr, trFirstArg, isNameOrNum],
   c2_transform_normal_form 2
     [.exprStmt (.call (.name "Set") [.name "x", .str "a"] [])] 0
     [.exprStmt (.call (.name "Set") [.name "x", .str "a"] [])] 0
     (by simp [transformFuel, trList, trStmt, trExpr, trFirstArg, isNameOrNum])⟩

/-- Counterexample to C2 as stated: `Set(x, "a")` is a fixed point of the
desugarer (only `args[0]` is inspected), yet its second positional
argument is neither a `Name` nor a `Num`. -/
theorem c2_second_arg_not_hoisted :
    transformFuel 2 [.exprStmt (.call (.name "Set") [.name "x", .str "a"] [])] 0 =
      .ok ([.exprStmt (.call (.name "Set") [.name "x", .str "a"] [])], 0) ∧
    isNameOrNum (.str "a") = false := by
  refine ⟨?_, by decide⟩
  simp [transformFuel, trList, trStmt, trExpr, trFirstArg, isNameOrNum]

/-- Claim C3 (code bug): desugaring `If(test, body, orelse)` with a
non-empty else clause appends an else gate whose condition is the
UNNEGATED `test` — the assignment written for the else branch is
character-for-character the then gate, not the specified
`IfExp(UnaryOp(Not, test), ...)`. -/
theorem c3_if_else_gate_unnegated :
    trStmt (.sIf (.name "c") [.exprStmt (.call (.name "noop") [] [])]
        [.exprStmt (.call (.name "noop") [] [])]) true 0 =
      .ok (true,
        [.assign (.name "tmpif0r") relationCall,
         .assign (.name "tmpif0") (.ifExp (.name "c") (.name "tmpif0r") setCall),
         .sFor (.name "tmp_") (.name "tmpif0")
           [.exprStmt (.call (.name "noop") [] [])] [],
         .assign (.name "tmpif0") (.ifExp (.name "c") (.name "tmpif0r") setCall),
         .sFor (.name "tmp_") (.name "tmpif0")
           [.exprStmt (.call (.name "noop") [] [])] []], 1) ∧
    Expr.ifExp (.name "c") (.name "tmpif0r") setCall ≠
      Expr.ifExp (.unaryOp .uNot (.name "c")) (.name "tmpif0r") setCall := by
  refine ⟨?_, by simp⟩
  simp [trStmt, draw, relationCall, setCall]
  decide

/-- Claim C4: the emitter's `Add`/`Sub` classification — both operand
fragments numeric gives `l + r` / `l - r`, both non-numeric gives the set
forms `(l; r)` / `(l; - r)`, and a mixed pair raises the corresponding
type error. -/
theorem c4_add_sub_classification (f : Nat) (l r : Expr) (lv rv : PyVal)
    (bl br : Bool) (hl : parseE f l = .ok lv) (hr : parseE f r = .ok rv)
    (hfl : floatable lv = .ok bl) (hfr : floatable rv = .ok br) :
    parseE (f + 1) (.binOp .add l r) =
      (if bl then
        if br then .ok (.str (lv.fmt ++ " + " ++ rv.fmt))
        else .error (.typeError "You cannot add a number to a set")
       else
        if br then .error (.typeError "You cannot add a set to a number")
        else .ok (.str ("(" ++ lv.fmt ++ "; " ++ rv.fmt ++ ")"))) ∧
    parseE (f + 1) (.binOp .sub l r) =
      (if bl then
        if br then .ok (.str (lv.fmt ++ " - " ++ rv.fmt))
        else .error (.typeError "You cannot subtract a set from a number")
       else
        if br then .error (.typeError "You cannot subtract a number from a set")
        else .ok (.str ("(" ++ lv.fmt ++ "; - " ++ rv.fmt ++ ")"))) := by
  constructor <;>
    (simp only [parseE, hl, hr]
     cases bl <;> cases br <;> simp [parseAddV, parseSubV, hfl, hfr])

/-- Witness for C4 at the mixed pair `1 + b` / `1 - b`. -/
theorem c4_classification_witness :
    parseE 1 (.num 1) = .ok (.str "1") ∧
    parseE 1 (.name "b") = .ok (.str ".b") ∧
    floatable (.str "1") = .ok true ∧
    floatable (.str ".b") = .ok false ∧
    (parseE 2 (.binOp .add (.num 1) (.name "b")) =
       .error (.typeError "You cannot add a number to a set") ∧
     parseE 2 (.binOp .sub (.num 1) (.name "b")) =
       .error (.typeError "You cannot subtract a set from a number")) :=
  ⟨by decide, by decide, by decide, by decide,
   c4_add_sub_classification 1 (.num 1) (.name "b") (.str "1") (.str ".b")
     true false (by decide) (by decide) (by decide) (by decide)⟩

/-- Claim C5 (amended): the emitter ignores a `For` statement's else
clause entirely — emission does not depend on it, so a non-empty else
clause is silently dropped rather than rejected. -/
theorem c5_for_orelse_ignored (f : Nat) (tgt itr : Expr)
    (body oe1 oe2 : List Stmt) :
    parseS f (.sFor tgt itr body oe1) = parseS f (.sFor tgt itr body oe2) := by
  cases f <;> rfl

/-- Witness for C5: an else clause holding a `Break` emits the same as an
empty one. -/
theorem c5_orelse_witness :
    parseS 10 (.sFor (.name "e") (.name "s") [] [.sBreak]) =
      parseS 10 (.sFor (.name "e") (.name "s") [] []) :=
  c5_for_orelse_ignored 10 (.name "e") (.name "s") [] [.sBreak] []

/-- Counterexample to C5 as stated: a `For` with a non-empty else clause
reaching the emitter does not fail with a syntax error — it emits a plain
`foreach` with the else clause dropped. -/
theorem c5_for_orelse_emitted_ok :
    parseS 10 (.sFor (.name "e") (.name "s")
        [.exprStmt (.call (.name "noop") [] [])]
        [.exprStmt (.call (.name "out") [.name "x"] [])]) =
      .ok "foreach.s->.e(\n        );" := by
  simp [parseS, parseSList, parseE, parseCallE, requireStr, sliceDrop, hasDot,
    joinSep, PyVal.fmt]

/-- Claim C6: the desugaring pass is idempotent — whenever `transform`
terminates with output `L`, running it again on `L` returns `L` (and
leaves the temp-name counter untouched). -/
theorem c6_transform_idempotent (n : Nat) (b : List Stmt) (c : Ctr)
    (L : List Stmt) (c2 : Ctr) (h : transformFuel n b c = .ok (L, c2)) :
    transformFuel n L c2 = .ok (L, c2) := by
  cases n with
  | zero => rw [transformFuel] at h; cases h
  | succ f =>
    have hfix := transformFuel_fix (f + 1) b c L c2 h c2
    rw [transformFuel]
    simp [hfix]

/-- Witness for C6 on an input the pass actually rewrites. -/
theorem c6_idempotent_witness :
    transformFuel 4
        [.exprStmt (.call (.name "out")
          [.binOp .add (.name "a") (.name "b")] [])] 0 =
      .ok ([.assign (.name "tmpcall0") (.binOp .add (.name "a") (.name "b"))], 1) ∧
    transformFuel 4
        [.assign (.name "tmpcall0") (.binOp .add (.name "a") (.name "b"))] 1 =
      .ok ([.assign (.name "tmpcall0") (.binOp .add (.name "a") (.name "b"))], 1) :=
  ⟨by simp [transformFuel, trList, trStmt, trExpr, trFirstArg, isNameOrNum, draw]
      decide,
   c6_transform_idempotent 4
     [.exprStmt (.call (.name "out") [.binOp .add (.name "a") (.name "b")] [])] 0
     [.assign (.name "tmpcall0") (.binOp .add (.name "a") (.name "b"))] 1
     (by simp [transformFuel, trList, trStmt, trExpr, trFirstArg, isNameOrNum,
           draw]
         decide)⟩

/-- Claim C7 (amended): the tag-filter table over the parsed keyword
fragment — `[!"key"]` for `None`, `["key"]` for `Ellipsis`, `["key"~x]`
for `Regex(x)`, `["key"!~x]` for `NotRegex(x)`, and `["key"="v"]`
otherwise; because a string literal's parsed fragment already carries
quotes, S2 compiles with doubled quotes. -/
theorem c7_tag_filter_table (key x v : String)
    (hr : pyStarts v "Regex(" = false) (hnr : pyStarts v "NotRegex(" = false) :
    parse_tags key .pyNone = .ok ("[!\"" ++ key ++ "\"]") ∧
    parse_tags key .pyEllipsis = .ok ("[\"" ++ key ++ "\"]") ∧
    parse_tags key (.str ("Regex(" ++ x ++ ")")) =
      .ok ("[\"" ++ key ++ "\"~" ++ x ++ "]") ∧
    parse_tags key (.str ("NotRegex(" ++ x ++ ")")) =
      .ok ("[\"" ++ key ++ "\"!~" ++ x ++ "]") ∧
    parse_tags key (.str v) = .ok ("[\"" ++ key ++ "\"=\"" ++ v ++ "\"]") ∧
    overpassifyList 10 [.assign (.name "x") (.call (.name "Way") []
        [("highway", .ellipsis), ("name", .str "Main")])] 0 =
      .ok "(way[\"highway\"][\"name\"=\"\"Main\"\"];) -> .x;" := by
  refine ⟨rfl, rfl, parse_tags_regex key x, parse_tags_notRegex key x, ?_, ?_⟩
  · rw [parse_tags, hr, hnr]
    simp
  · simp [overpassifyList, transformFuel, trList, trStmt, trExpr, trFirstArg,
      isNameOrNum, parseSList, parseS, parseE, parseCallE, requireStr,
      sliceDrop, hasDot, translateGlobalCall, callConstructor, tagsFor,
      parse_tags, pyStarts, joinSep, PyVal.fmt, lowerStr, firstComponent,
      pyIsNumeric, sliceDropLast]

/-- Witness for C7 at `key = "name"`, `x = "x"`, `v = "Main"`. -/
theorem c7_table_witness :
    (pyStarts "Main" "Regex(" = false ∧ pyStarts "Main" "NotRegex(" = false) ∧
    (parse_tags "name" .pyNone = .ok "[!\"name\"]" ∧
     parse_tags "name" .pyEllipsis = .ok "[\"name\"]" ∧
     parse_tags "name" (.str ("Regex(" ++ "x" ++ ")")) =
       .ok ("[\"" ++ "name" ++ "\"~" ++ "x" ++ "]") ∧
     parse_tags "name" (.str ("NotRegex(" ++ "x" ++ ")")) =
       .ok ("[\"" ++ "name" ++ "\"!~" ++ "x" ++ "]") ∧
     parse_tags "name" (.str "Main") = .ok "[\"name\"=\"Main\"]" ∧
     overpassifyList 10 [.assign (.name "x") (.call (.name "Way") []
         [("highway", .ellipsis), ("name", .str "Main")])] 0 =
       .ok "(way[\"highway\"][\"name\"=\"\"Main\"\"];) -> .x;") :=
  ⟨⟨by decide, by decide⟩,
   c7_tag_filter_table "name" "x" "Main" (by decide) (by decide)⟩

/-- Counterexample to C7 as stated: scenario S2 does not produce the
claimed `["name"="Main"]` filter — the string fragment is double-quoted. -/
theorem c7_s2_double_quoted :
    overpassifyList 10 [.assign (.name "x") (.call (.name "Way") []
        [("highway", .ellipsis), ("name", .str "Main")])] 0 ≠
      .ok "(way[\"highway\"][\"name\"=\"Main\"];) -> .x;" := by
  simp [overpassifyList, transformFuel, trList, trStmt, trExpr, trFirstArg,
    isNameOrNum, parseSList, parseS, parseE, parseCallE, requireStr,
    sliceDrop, hasDot, translateGlobalCall, callConstructor, tagsFor,
    parse_tags, pyStarts, joinSep, PyVal.fmt, lowerStr, firstComponent,
    pyIsNumeric, sliceDropLast]

/-- Claim C8 (code bug): `is_in` with zero or one positional argument and
with more than two behaves as specified, but with exactly two it formats
the raw AST objects instead of their emitted fragments. -/
theorem c8_is_in_arities :
    parseE 10 (.call (.name "is_in") [] []) = .ok (.str "is_in") ∧
    parseE 10 (.call (.name "is_in") [.name "x"] []) = .ok (.str ".x is_in") ∧
    parseE 10 (.call (.name "is_in") [.name "x", .name "y"] []) =
      .ok (.str ("is_in(<_ast.Name object at 0x7f0000000000>, " ++
                 "<_ast.Name object at 0x7f0000000000>)")) ∧
    parseE 10 (.call (.name "is_in") [.name "x", .name "y"] []) ≠
      .ok (.str "is_in(.x, .y)") ∧
    parseE 10 (.call (.name "is_in") [.name "x", .name "y", .name "z"] []) =
      .error (.indexError "is_in needs 0-2 arguments, 3 given") := by
  refine ⟨by decide, by decide, by decide, by decide, by decide⟩

/-- Claim C9: end-to-end compilation of scenario S1 — `x = Node(1);
out(x)` yields exactly the two-line script. -/
theorem c9_simple_assign_out :
    overpassifyList 10
        [.assign (.name "x") (.call (.name "Node") [.num 1] []),
         .exprStmt (.call (.name "out") [.name "x"] [])] 0 =
      .ok "(node(1);) -> .x;\n.x out ;" := by
  simp [overpassifyList, transformFuel, trList, trStmt, trExpr, trFirstArg,
    isNameOrNum, parseSList, parseS, parseE, parseCallE, requireStr, sliceDrop,
    hasDot, translateGlobalCall, callConstructor, callOut, outKeys, dedupKeys,
    tagsFor, joinSep, PyVal.fmt, pyIsNumeric, pyStarts, lowerStr,
    firstComponent]
  decide

/-- Claim C10: the compiler rejects the empty statement list with the
IndexError raised while probing the first statement for Settings, at any
recursion budget and counter. -/
theorem c10_empty_body_error (fuel : Nat) (c : Ctr) :
    overpassifyList fuel [] c = .error (.indexError "list index out of range") :=
  rfl

/-- Witness for C10 at a concrete budget and counter. -/
theorem c10_empty_witness :
    overpassifyList 5 [] 7 = .error (.indexError "list index out of range") :=
  c10_empty_body_error 5 7
